import Mathlib

/-!
Shallow embedding of `transformer.py` (repository `ninahug/Transformer`).

The forward computation of the model is embedded over an abstract linearly
ordered field `α` together with a record `NumOps` of abstract numeric
operations standing for `math.sin`, `math.cos`, `math.pow`, `math.sqrt` and
the exponential used inside `nn.Softmax`.  Tensors are modelled as nested
lists (`Vec`, `Mat`, `T3`, `T4` for 1- to 4-dimensional tensors); tensor
operations that can raise a runtime error in PyTorch (`Tensor.view`,
broadcasting addition) return `Option`.  Each module class of the source
becomes a structure holding its parameters, its `__init__` becomes a `mk…`
function and its `forward` becomes a `…Forward` function.
-/

namespace TransformerSpec

/-- Abstract numeric operations of the host language / framework:
`sinf`, `cosf`, `powf` model `math.sin`, `math.cos`, `math.pow`;
`sqrtf` models `math.sqrt`; `expf` models the exponential inside
`nn.Softmax`. -/
structure NumOps (α : Type) where
  sinf : α → α
  cosf : α → α
  powf : α → α → α
  sqrtf : α → α
  expf : α → α

/-- One-dimensional tensor. -/
abbrev Vec (α : Type) := List α

/-- Two-dimensional tensor (list of rows). -/
abbrev Mat (α : Type) := List (List α)

/-- Three-dimensional tensor. -/
abbrev T3 (α : Type) := List (List (List α))

/-- Four-dimensional tensor. -/
abbrev T4 (α : Type) := List (List (List (List α)))

variable {α : Type} [LinearOrderedField α]

/-! ### Generic list helpers -/

/-- Length of the first row of a nested list (the size of dimension 1 of a
rectangular tensor). -/
def rowLen {β : Type} (m : List (List β)) : Nat := (m.headD []).length

/-- Update the element at position `i` (no-op when out of bounds), as tensor
index assignment does. -/
def updAt {β : Type} : Nat → (β → β) → List β → List β
  | _, _, [] => []
  | 0, f, x :: xs => f x :: xs
  | n + 1, f, x :: xs => x :: updAt n f xs

/-- Map with the position of each element. -/
def mapIdxFrom {β γ : Type} (f : Nat → β → γ) : Nat → List β → List γ
  | _, [] => []
  | n, x :: xs => f n x :: mapIdxFrom f (n + 1) xs

/-- Map with the position of each element, starting at 0. -/
def mapIdxL {β γ : Type} (f : Nat → β → γ) (l : List β) : List γ :=
  mapIdxFrom f 0 l

/-- Indexed read implementing the size-1 broadcasting rule of PyTorch:
a dimension of size 1 is read at position 0 whatever the index. -/
def bget {β : Type} (l : List β) (i : Nat) (d : β) : β :=
  l.getD (if l.length = 1 then 0 else i) d

/-- Flatten a 2-dimensional tensor row-major. -/
def flat2 {β : Type} (m : List (List β)) : List β :=
  m.foldr (fun r acc => r ++ acc) []

/-- Flatten a 3-dimensional tensor row-major. -/
def flat3 {β : Type} (t : List (List (List β))) : List β :=
  t.foldr (fun m acc => flat2 m ++ acc) []

/-- Flatten a 4-dimensional tensor row-major. -/
def flat4 {β : Type} (t : List (List (List (List β)))) : List β :=
  t.foldr (fun m acc => flat3 m ++ acc) []

/-- Split a list into consecutive chunks of size `n` (fuel-based recursion;
the fuel is the length of the list). -/
def chunksF {β : Type} : Nat → Nat → List β → List (List β)
  | 0, _, _ => []
  | _ + 1, _, [] => []
  | fuel + 1, n, l => l.take n :: chunksF fuel n (l.drop n)

/-- Split a list into consecutive chunks of size `n`. -/
def chunks {β : Type} (n : Nat) (l : List β) : List (List β) :=
  chunksF l.length n l

/-! ### Rectangularity predicates -/

/-- `m` is a rectangular matrix with `r` rows and `c` columns. -/
def rect2 {β : Type} (m : List (List β)) (r c : Nat) : Prop :=
  m.length = r ∧ ∀ row ∈ m, row.length = c

/-- `t` is a rectangular 3-dimensional tensor of shape `(a, b, c)`. -/
def rect3 {β : Type} (t : List (List (List β))) (a b c : Nat) : Prop :=
  t.length = a ∧ ∀ m ∈ t, rect2 m b c

/-- `t` is a rectangular 4-dimensional tensor of shape `(a, b, c, d)`. -/
def rect4 {β : Type} (t : List (List (List (List β)))) (a b c d : Nat) : Prop :=
  t.length = a ∧ ∀ m ∈ t, rect3 m b c d

instance {β : Type} (m : List (List β)) (r c : Nat) : Decidable (rect2 m r c) := by
  unfold rect2; infer_instance

instance {β : Type} (t : List (List (List β))) (a b c : Nat) : Decidable (rect3 t a b c) := by
  unfold rect3; infer_instance

instance {β : Type} (t : List (List (List (List β)))) (a b c d : Nat) :
    Decidable (rect4 t a b c d) := by
  unfold rect4; infer_instance

/-! ### Entry access -/

/-- Entry `(i, j)` of a matrix (0 when out of bounds). -/
def getEntry (m : Mat α) (i j : Nat) : α := (m.getD i []).getD j 0

/-- Entry `(b, i, j)` of a 3-dimensional tensor. -/
def get3 (t : T3 α) (b i j : Nat) : α := ((t.getD b []).getD i []).getD j 0

/-- Entry `(b, h, i, j)` of a 4-dimensional tensor. -/
def get4 (t : T4 α) (b h i j : Nat) : α :=
  (((t.getD b []).getD h []).getD i []).getD j 0

/-! ### PositionalEncoding (`transformer.py` lines 13-27) -/

/-- Assignment `m[i, j] = v` on a 2-D tensor. -/
def setEntry (m : Mat α) (i j : Nat) (v : α) : Mat α :=
  updAt i (fun row => updAt j (fun _ => v) row) m

/-- `torch.zeros((r, c))`. -/
def zerosMat (r c : Nat) : Mat α := List.replicate r (List.replicate c 0)

/-- The angle `pos / math.pow(10000, 2 * i / embedding_dim)`. -/
def peArg (F : NumOps α) (embedding_dim pos i : Nat) : α :=
  (pos : α) / F.powf (10000 : α) (((2 * i : Nat) : α) / (embedding_dim : α))

/-- `PositionalEncoding.__init__`: start from a zero `(max_len, embedding_dim)`
tensor and fill `PE[pos, 2i] = sin(pos / 10000^(2i/embedding_dim))`,
`PE[pos, 2i+1] = cos(pos / 10000^(2i/embedding_dim))` with the source's two
nested loops. -/
def buildPE (F : NumOps α) (max_len embedding_dim : Nat) : Mat α :=
  (List.range max_len).foldl (fun m pos =>
    (List.range (embedding_dim / 2)).foldl (fun m i =>
      setEntry (setEntry m pos (2 * i) (F.sinf (peArg F embedding_dim pos i)))
        pos (2 * i + 1) (F.cosf (peArg F embedding_dim pos i))) m)
    (zerosMat max_len embedding_dim)

/-- One iteration of the inner loop of `PositionalEncoding.__init__`, acting on
the row at `pos`. -/
def peRowStep (F : NumOps α) (embedding_dim pos : Nat) (r : Vec α) (i : Nat) : Vec α :=
  updAt (2 * i + 1) (fun _ => F.cosf (peArg F embedding_dim pos i))
    (updAt (2 * i) (fun _ => F.sinf (peArg F embedding_dim pos i)) r)

/-- The full inner loop of `PositionalEncoding.__init__` on the row at `pos`. -/
def peRow (F : NumOps α) (embedding_dim pos : Nat) (r : Vec α) : Vec α :=
  (List.range (embedding_dim / 2)).foldl (peRowStep F embedding_dim pos) r

/-- Size produced by broadcasting two dimension sizes (PyTorch rule: equal
sizes, or one of them is 1). -/
def bcastLen (a b : Nat) : Option Nat :=
  if a = b then some a else if a = 1 then some b else if b = 1 then some a else none

/-- Dimension 2 size of a 3-D tensor. -/
def colLen (t : T3 α) : Nat := ((t.headD []).headD []).length

/-- Broadcasting read of an entry of a 3-D tensor. -/
def get3b (t : T3 α) (b i j : Nat) : α :=
  bget (bget (bget t b []) i []) j 0

/-- Broadcasting addition of two 3-D tensors (PyTorch `+`); `none` models the
runtime shape-mismatch error. -/
def broadcastAdd3 (x y : T3 α) : Option (T3 α) :=
  match bcastLen x.length y.length, bcastLen (rowLen x) (rowLen y),
      bcastLen (colLen x) (colLen y) with
  | some b, some s, some e =>
      some ((List.range b).map (fun bi => (List.range s).map (fun si =>
        (List.range e).map (fun j => get3b x bi si j + get3b y bi si j))))
  | _, _, _ => none

/-- `PositionalEncoding.forward`: `out = x + self.positionalEncoding`.  The
whole 2-D table takes part in the broadcasting addition (there is no
`[0:seq_len]` slice in the source); against a 3-D input the table behaves as
the 3-D tensor `[pe]`. -/
def posEncForward (pe : Mat α) (x : T3 α) : Option (T3 α) :=
  broadcastAdd3 x [pe]

/-! ### Linear layers (`nn.Linear`) -/

/-- An `nn.Linear` module: weight matrix of shape `(out_features, in_features)`
and bias vector of length `out_features`. -/
structure LinearLayer (α : Type) where
  weight : Mat α
  bias : Vec α

/-- `Σ x_i * y_i`. -/
def dotV (x y : Vec α) : α := (List.zipWith (fun a b => a * b) x y).sum

/-- `nn.Linear` on one feature vector: `y_o = dot x W_o + b_o` (that is,
`y = x Wᵀ + b`). -/
def linearRow (L : LinearLayer α) (x : Vec α) : Vec α :=
  List.zipWith (fun w b => dotV x w + b) L.weight L.bias

/-- `nn.Linear` applied position-wise to a 2-D tensor. -/
def linearM (L : LinearLayer α) (m : Mat α) : Mat α := m.map (linearRow L)

/-- `nn.Linear` applied position-wise to a 3-D tensor. -/
def linearT3 (L : LinearLayer α) (t : T3 α) : T3 α := t.map (linearM L)

/-! ### ScaledDotProductAttention (`transformer.py` lines 30-53) -/

/-- Transpose of a nested list whose rows have length `rowLen m`, with default
`d` (models `Tensor.transpose` of the two trailing dimensions of a rectangular
tensor). -/
def transposeD {β : Type} (d : β) (m : List (List β)) : List (List β) :=
  (List.range (rowLen m)).map (fun j => m.map (fun r => r.getD j d))

/-- Transpose of a 2-D tensor. -/
def transposeM (m : Mat α) : Mat α := transposeD 0 m

/-- `torch.matmul` on 2-D tensors. -/
def matmulM (a b : Mat α) : Mat α :=
  a.map (fun r => (transposeM b).map (fun c => dotV r c))

/-- `nn.Softmax(dim=-1)` on one row: exponentiate and normalize by the sum. -/
def softmaxRow (expf : α → α) (r : Vec α) : Vec α :=
  let e := r.map expf
  e.map (fun v => v / e.sum)

/-- The constant `-1e10` used by `masked_fill`. -/
def maskFillConstant : α := -10000000000

/-- `Tensor.masked_fill(mask == 0, -1e10)` on one score matrix, with the mask
matrix read under the size-1 broadcasting rule. -/
def maskFill2 (m : Mat α) (s : Mat α) : Mat α :=
  mapIdxL (fun i row => mapIdxL (fun j x =>
    if bget (bget m i []) j (0 : α) = 0 then maskFillConstant else x) row) s

/-- Application of the (already `unsqueeze(1)`-ed) 3-D mask to the 4-D score
tensor: the mask matrix of each batch element is shared by every head. -/
def sdpMask (mask : T3 α) (scores : T4 α) : T4 α :=
  mapIdxL (fun b heads => heads.map (fun s => maskFill2 (bget mask b []) s)) scores

/-- The dropout configuration of a `ScaledDotProductAttention`: the rate and an
abstract function standing for one stochastic draw of `nn.Dropout` in training
mode (`nn.Dropout` is the identity in evaluation mode). -/
structure ScaledDotProductAttention (α : Type) where
  dk : Nat
  dropout_rate : α
  drop : T4 α → T4 α

/-- `ScaledDotProductAttention.forward` (batch, head, sequence, feature):
`out = matmul(query, key.transpose(2,3))`; `out /= sqrt(dk)`; if a mask is
given, `out = out.masked_fill(mask.unsqueeze(1) == 0, -1e10)`; softmax over the
last axis; dropout when `dropout_rate > 0` (a stochastic draw only in training
mode); `out = matmul(out, value)`. -/
def sdpForward (F : NumOps α) (S : ScaledDotProductAttention α) (training : Bool)
    (query key value : T4 α) (mask : Option (T3 α)) : T4 α :=
  let out := List.zipWith (List.zipWith (fun qh kh => matmulM qh (transposeM kh))) query key
  let out := out.map (fun bs => bs.map (fun s => s.map (fun r =>
    r.map (fun v => v / F.sqrtf ((S.dk : α))))))
  let out := match mask with
    | none => out
    | some m => sdpMask m out
  let out := out.map (fun bs => bs.map (fun s => s.map (softmaxRow F.expf)))
  let out := if S.dropout_rate > 0 ∧ training then S.drop out else out
  List.zipWith (List.zipWith (fun wh vh => matmulM wh vh)) out value

/-- The scaled raw scores of `ScaledDotProductAttention.forward` (lines 41-42):
`matmul(query, key.transpose(2,3)) / sqrt(dk)`. -/
def sdpRawScores (F : NumOps α) (dk : Nat) (query key : T4 α) : T4 α :=
  (List.zipWith (List.zipWith (fun qh kh => matmulM qh (transposeM kh))) query key).map
    (fun bs => bs.map (fun s => s.map (fun r => r.map (fun v => v / F.sqrtf ((dk : α))))))

/-- The scores after the optional masking step (lines 44-46). -/
def sdpMaskedScores (F : NumOps α) (dk : Nat) (query key : T4 α)
    (mask : Option (T3 α)) : T4 α :=
  match mask with
  | none => sdpRawScores F dk query key
  | some m => sdpMask m (sdpRawScores F dk query key)

/-- The attention weights: softmax over the last axis of the (possibly masked)
scores (line 47). -/
def sdpSoftmaxWeights (F : NumOps α) (dk : Nat) (query key : T4 α)
    (mask : Option (T3 α)) : T4 α :=
  (sdpMaskedScores F dk query key mask).map
    (fun bs => bs.map (fun s => s.map (softmaxRow F.expf)))

/-! ### MultiHeadAttention (`transformer.py` lines 56-85) -/

/-- A `MultiHeadAttention` module: the four `nn.Linear` projections, the inner
attention kernel, and the configuration read at construction. -/
structure MultiHeadAttention (α : Type) where
  embedding_dim : Nat
  head : Nat
  dk : Nat
  dense_query : LinearLayer α
  dense_key : LinearLayer α
  dense_value : LinearLayer α
  scaled_dot_product_attention : ScaledDotProductAttention α
  dense : LinearLayer α

/-- `MultiHeadAttention.__init__`: stores `embedding_dim`, `head`,
`dk = embedding_dim // head` (integer division, no divisibility check is
performed), the projection layers, and builds the kernel with this `dk` and
the dropout rate.  The projection weights are construction-time data (randomly
initialized by `nn.Linear` in the source), passed here as arguments. -/
def mkMultiHeadAttention (head embedding_dim : Nat) (dropout_rate : α)
    (dq dkl dv dd : LinearLayer α) (drop : T4 α → T4 α) : MultiHeadAttention α :=
  { embedding_dim := embedding_dim
    head := head
    dk := embedding_dim / head
    dense_query := dq
    dense_key := dkl
    dense_value := dv
    scaled_dot_product_attention :=
      { dk := embedding_dim / head, dropout_rate := dropout_rate, drop := drop }
    dense := dd }

/-- `Tensor.view(b, l, h, dkk)` on a 3-D tensor: succeeds exactly when the
element count matches, and then re-chunks the row-major flattening. -/
def view4 (b l h dkk : Nat) (t : T3 α) : Option (T4 α) :=
  let f := flat3 t
  if f.length = b * (l * (h * dkk)) then
    some ((chunks (l * (h * dkk)) f).map (fun bb =>
      (chunks (h * dkk) bb).map (fun r => chunks dkk r)))
  else none

/-- `Tensor.view(b, l, e)` on a 4-D tensor. -/
def view3 (b l e : Nat) (t : T4 α) : Option (T3 α) :=
  let f := flat4 t
  if f.length = b * (l * e) then
    some ((chunks (l * e) f).map (fun bb => chunks e bb))
  else none

/-- `Tensor.transpose(1, 2)` on a 4-D tensor. -/
def tr12 (t : T4 α) : T4 α := t.map (transposeD ([] : Vec α))

/-- `MultiHeadAttention.forward`: batch and sequence length are read from the
query alone (`batch, max_len, embedding_dim = query.size()`); the projected
query, key and value are all `view`-ed with those dimensions, transposed, run
through the kernel, `view`-ed back to `(batch, max_len, embedding_dim)` (with
no transpose back), and projected by the output layer. -/
def mhaForward (F : NumOps α) (M : MultiHeadAttention α) (training : Bool)
    (query key value : T3 α) (mask : Option (T3 α)) : Option (T3 α) := do
  let batch := query.length
  let len := rowLen query
  let q ← view4 batch len M.head M.dk (linearT3 M.dense_query query)
  let k ← view4 batch len M.head M.dk (linearT3 M.dense_key key)
  let v ← view4 batch len M.head M.dk (linearT3 M.dense_value value)
  let o := sdpForward F M.scaled_dot_product_attention training (tr12 q) (tr12 k) (tr12 v) mask
  let o3 ← view3 batch len M.embedding_dim o
  pure (linearT3 M.dense o3)

/-! ### LayerNorm (`transformer.py` lines 88-103) -/

/-- A `LayerNorm` module: scale `gamma`, shift `beta`, and `eps`. -/
structure LayerNorm (α : Type) where
  gamma : Vec α
  beta : Vec α
  eps : α

/-- `LayerNorm.__init__`: `gamma = torch.ones(embedding_dim)`,
`beta = torch.zeros(embedding_dim)`, default `eps = 1e-6`. -/
def mkLayerNorm (embedding_dim : Nat) (eps : α) : LayerNorm α :=
  { gamma := List.replicate embedding_dim 1
    beta := List.replicate embedding_dim 0
    eps := eps }

/-- `Tensor.mean(dim=-1)` of one row. -/
def meanRow (x : Vec α) : α := x.sum / (x.length : α)

/-- The unbiased variance used by `Tensor.std(dim=-1)`:
`Σ (x_i - mean)² / (n - 1)`. -/
def varRow (x : Vec α) : α :=
  (x.map (fun v => (v - meanRow x) ^ 2)).sum / ((x.length : α) - 1)

/-- `Tensor.std(dim=-1)` of one row (square root of the unbiased variance). -/
def stdRow (sqrtf : α → α) (x : Vec α) : α := sqrtf (varRow x)

/-- `LayerNorm.forward` on one feature vector:
`gamma * (x - mean) / (std + eps) + beta`. -/
def layerNormRow (sqrtf : α → α) (ln : LayerNorm α) (x : Vec α) : Vec α :=
  List.zipWith (fun gv b => gv + b)
    (List.zipWith (fun g v => g * (v - meanRow x) / (stdRow sqrtf x + ln.eps)) ln.gamma x)
    ln.beta

/-- `LayerNorm.forward` on a 3-D activation tensor (statistics over the last
axis). -/
def layerNormT3 (F : NumOps α) (ln : LayerNorm α) (t : T3 α) : T3 α :=
  t.map (fun m => m.map (layerNormRow F.sqrtf ln))

/-! ### FeedForward (`transformer.py` lines 106-130) -/

/-- A `FeedForward` module: the two `nn.Linear` maps of the `dense` branch
(the unused `conv` branch is dead code), the dropout rate, an abstract
training-mode dropout draw, and the hard-coded `inner_dim = 2048`. -/
structure FeedForward (α : Type) where
  dense1 : LinearLayer α
  dense2 : LinearLayer α
  dropout_rate : α
  drop : T3 α → T3 α
  inner_dim : Nat

/-- `FeedForward.forward` through the `dense` branch:
`Linear → ReLU → Dropout → Linear` (dropout draws only in training mode). -/
def ffForward (Fw : FeedForward α) (training : Bool) (x : T3 α) : T3 α :=
  let out := linearT3 Fw.dense1 x
  let out := out.map (fun m => m.map (fun r => r.map (fun v => max v 0)))
  let out := if training then Fw.drop out else out
  linearT3 Fw.dense2 out

/-! ### EncoderLayer / Encoder (`transformer.py` lines 133-182) -/

/-- An `EncoderLayer` module. -/
structure EncoderLayer (α : Type) where
  multi_head_attention : MultiHeadAttention α
  layer_norm1 : LayerNorm α
  feed_forward : FeedForward α
  layer_norm2 : LayerNorm α

/-- `EncoderLayer.forward`:
`out = layer_norm1(multi_head_attention(x, x, x, x_mask) + x)`;
`out = layer_norm2(feed_forward(out) + out)`. -/
def encoderLayerForward (F : NumOps α) (L : EncoderLayer α) (training : Bool)
    (x : T3 α) (x_mask : Option (T3 α)) : Option (T3 α) := do
  let mh ← mhaForward F L.multi_head_attention training x x x x_mask
  let s1 ← broadcastAdd3 mh x
  let out := layerNormT3 F L.layer_norm1 s1
  let s2 ← broadcastAdd3 (ffForward L.feed_forward training out) out
  pure (layerNormT3 F L.layer_norm2 s2)

/-- An `Encoder` module: embedding table, positional table, and the `N`
stacked layers. -/
structure Encoder (α : Type) where
  embedding : Mat α
  positionalEncoding : Mat α
  layers : List (EncoderLayer α)

/-- `nn.Embedding` lookup of a batch of token-id sequences. -/
def embedLookup (table : Mat α) (ids : List (List Nat)) : T3 α :=
  ids.map (fun r => r.map (fun i => table.getD i []))

/-- Lines 176-177 of `Encoder.forward` — the tensor handed to the first
`EncoderLayer`: `embedding_out = self.embedding(x)`;
`out = embedding_out + self.positionalEncoding(embedding_out)` (note that
`positionalEncoding` already returns its input plus the table). -/
def encoderFirstInput (E : Encoder α) (x : List (List Nat)) : Option (T3 α) := do
  let embedding_out := embedLookup E.embedding x
  let p ← posEncForward E.positionalEncoding embedding_out
  broadcastAdd3 embedding_out p

/-- `Encoder.forward`: the first-layer input, then the `N` layers applied in
sequence, each receiving the same source mask. -/
def encoderForward (F : NumOps α) (E : Encoder α) (training : Bool)
    (x : List (List Nat)) (x_mask : Option (T3 α)) : Option (T3 α) := do
  let first ← encoderFirstInput E x
  E.layers.foldlM (fun out L => encoderLayerForward F L training out x_mask) first

/-! ### DecoderLayer / Decoder (`transformer.py` lines 185-234) -/

/-- A `DecoderLayer` module. -/
structure DecoderLayer (α : Type) where
  multi_head_attention1 : MultiHeadAttention α
  multi_head_attention2 : MultiHeadAttention α
  layer_norm1 : LayerNorm α
  layer_norm2 : LayerNorm α
  layer_norm3 : LayerNorm α
  feed_forward : FeedForward α

/-- `DecoderLayer.forward`:
`out = layer_norm1(multi_head_attention1(target, target, target, target_mask) + target)`;
`out = layer_norm2(multi_head_attention2(encoder_out, encoder_out, out, x_mask) + out)`
(the second attention receives `query = encoder_out`, `key = encoder_out`,
`value = out` — the positional arguments of line 204);
`out = layer_norm3(feed_forward(out) + out)`. -/
def decoderLayerForward (F : NumOps α) (L : DecoderLayer α) (training : Bool)
    (encoder_out target : T3 α) (x_mask target_mask : Option (T3 α)) :
    Option (T3 α) := do
  let mh1 ← mhaForward F L.multi_head_attention1 training target target target target_mask
  let s1 ← broadcastAdd3 mh1 target
  let out1 := layerNormT3 F L.layer_norm1 s1
  let mh2 ← mhaForward F L.multi_head_attention2 training encoder_out encoder_out out1 x_mask
  let s2 ← broadcastAdd3 mh2 out1
  let out2 := layerNormT3 F L.layer_norm2 s2
  let s3 ← broadcastAdd3 (ffForward L.feed_forward training out2) out2
  pure (layerNormT3 F L.layer_norm3 s3)

/-- Modelled from the spec (section 4.8, the sentence of claim C1): the second
stage as the spec states it — the attention is called with `query` = stage-1
output, `key = value` = encoder output — everything else unchanged.  Used only
to compare the spec's sentence with the source's `dlStage2`. -/
def dlStage2Claim (F : NumOps α) (L : DecoderLayer α) (training : Bool)
    (encoder_out out1 : T3 α) (x_mask : Option (T3 α)) : Option (T3 α) := do
  let mh2 ← mhaForward F L.multi_head_attention2 training out1 encoder_out encoder_out x_mask
  let s2 ← broadcastAdd3 mh2 out1
  pure (layerNormT3 F L.layer_norm2 s2)

/-- Stage 1 of `DecoderLayer.forward` (lines 200-201): masked self-attention
over the target, residual, normalization. -/
def dlStage1 (F : NumOps α) (L : DecoderLayer α) (training : Bool)
    (target : T3 α) (target_mask : Option (T3 α)) : Option (T3 α) := do
  let mh1 ← mhaForward F L.multi_head_attention1 training target target target target_mask
  let s1 ← broadcastAdd3 mh1 target
  pure (layerNormT3 F L.layer_norm1 s1)

/-- Stage 2 of `DecoderLayer.forward` (lines 204-205): the second attention is
called with `query = encoder_out`, `key = encoder_out`, `value = out1` (the
stage-1 output) and the source mask; then residual with `out1` and
normalization. -/
def dlStage2 (F : NumOps α) (L : DecoderLayer α) (training : Bool)
    (encoder_out out1 : T3 α) (x_mask : Option (T3 α)) : Option (T3 α) := do
  let mh2 ← mhaForward F L.multi_head_attention2 training encoder_out encoder_out out1 x_mask
  let s2 ← broadcastAdd3 mh2 out1
  pure (layerNormT3 F L.layer_norm2 s2)

/-- Stage 3 of `DecoderLayer.forward` (lines 208-209): feed-forward, residual,
normalization. -/
def dlStage3 (F : NumOps α) (L : DecoderLayer α) (training : Bool)
    (out2 : T3 α) : Option (T3 α) := do
  let s3 ← broadcastAdd3 (ffForward L.feed_forward training out2) out2
  pure (layerNormT3 F L.layer_norm3 s3)

/-- A `Decoder` module. -/
structure Decoder (α : Type) where
  embedding : Mat α
  positionalEncoding : Mat α
  layers : List (DecoderLayer α)

/-- Lines 229-230 of `Decoder.forward` — the tensor handed to the first
`DecoderLayer` (same shape of computation as the encoder side). -/
def decoderFirstInput (D : Decoder α) (x : List (List Nat)) : Option (T3 α) := do
  let embedding_out := embedLookup D.embedding x
  let p ← posEncForward D.positionalEncoding embedding_out
  broadcastAdd3 embedding_out p

/-- `Decoder.forward`: the first-layer input, then the `N` layers applied in
sequence, each conditioned on the fixed encoder output and both masks. -/
def decoderForward (F : NumOps α) (D : Decoder α) (training : Bool)
    (encoder_out : T3 α) (x : List (List Nat)) (x_mask target_mask : Option (T3 α)) :
    Option (T3 α) := do
  let first ← decoderFirstInput D x
  D.layers.foldlM
    (fun out L => decoderLayerForward F L training encoder_out out x_mask target_mask) first

/-! ### Concrete instantiation used by witnesses and counterexamples -/

/-- Concrete numeric operations over `ℚ` (the structural claims do not depend
on the analytic properties of the transcendental functions, so witnesses and
counterexamples instantiate them with simple computable stand-ins). -/
def ratOps : NumOps ℚ :=
  ⟨id, id, fun _ _ => 1, id, id⟩

/-- A concrete 2×2 identity linear layer over `ℚ`. -/
def idLin2 : LinearLayer ℚ :=
  ⟨[[1, 0], [0, 1]], [0, 0]⟩

/-- A concrete single-head 2-dimensional `MultiHeadAttention` over `ℚ` with
identity projections and no dropout. -/
def mha2 : MultiHeadAttention ℚ :=
  mkMultiHeadAttention 1 2 0 idLin2 idLin2 idLin2 idLin2 id

/-- A concrete 2-dimensional `LayerNorm` over `ℚ` with the source's default
`eps = 1e-6`. -/
def ln2 : LayerNorm ℚ := mkLayerNorm 2 (1 / 1000000)

/-- A concrete 2-dimensional `FeedForward` over `ℚ` with identity-shaped
2×2 weights and no dropout. -/
def ff2 : FeedForward ℚ :=
  ⟨idLin2, idLin2, 0, id, 2048⟩

/-- A concrete `DecoderLayer` over `ℚ` assembled from the pieces above. -/
def decLayer2 : DecoderLayer ℚ :=
  ⟨mha2, mha2, ln2, ln2, ln2, ff2⟩

/-- A concrete all-zero 10×10 linear layer over `ℚ`. -/
def zeroLin10 : LinearLayer ℚ :=
  ⟨List.replicate 10 (List.replicate 10 0), List.replicate 10 0⟩

/-- A concrete well-shaped `(1, 1, 10)` input over `ℚ`. -/
def ones10 : T3 ℚ := [[List.replicate 10 1]]

/-- A concrete `Encoder` over `ℚ`: a one-entry vocabulary with embedding row
`[5, 7]`, the positional table for `max_len = 1, embedding_dim = 2`, and no
layers. -/
def enc0 : Encoder ℚ := ⟨[[5, 7]], buildPE ratOps 1 2, []⟩

/-- A concrete `Decoder` over `ℚ` with the same data as `enc0`. -/
def dec0 : Decoder ℚ := ⟨[[5, 7]], buildPE ratOps 1 2, []⟩

/-! ### Basic lemmas about the helpers -/

theorem length_updAt {β : Type} (i : Nat) (f : β → β) (l : List β) :
    (updAt i f l).length = l.length := by
  induction l generalizing i with
  | nil => cases i <;> rfl
  | cons x xs ih =>
    cases i with
    | zero => rfl
    | succ n => simpa [updAt] using ih n

theorem getD_updAt_ne {β : Type} (i j : Nat) (f : β → β) (l : List β) (d : β)
    (h : i ≠ j) : (updAt i f l).getD j d = l.getD j d := by
  induction l generalizing i j with
  | nil => cases i <;> rfl
  | cons x xs ih =>
    cases i with
    | zero =>
      cases j with
      | zero => exact absurd rfl h
      | succ m => rfl
    | succ n =>
      cases j with
      | zero => rfl
      | succ m =>
        simpa [updAt, List.getD] using ih n m (fun hc => h (by simp [hc]))

theorem getD_updAt_eq {β : Type} (i : Nat) (f : β → β) (l : List β) (d : β)
    (h : i < l.length) : (updAt i f l).getD i d = f (l.getD i d) := by
  induction l generalizing i with
  | nil => simp at h
  | cons x xs ih =>
    cases i with
    | zero => rfl
    | succ n =>
      simpa [updAt, List.getD] using ih n (by simpa using h)

theorem updAt_updAt {β : Type} (i : Nat) (f g : β → β) (l : List β) :
    updAt i f (updAt i g l) = updAt i (fun x => f (g x)) l := by
  induction l generalizing i with
  | nil => cases i <;> rfl
  | cons x xs ih =>
    cases i with
    | zero => rfl
    | succ n => simpa [updAt] using ih n

theorem getD_replicate {β : Type} (n i : Nat) (x d : β) (h : i < n) :
    (List.replicate n x).getD i d = x := by
  induction n generalizing i with
  | zero => simp at h
  | succ m ih =>
    cases i with
    | zero => rfl
    | succ k =>
      simpa [List.replicate, List.getD] using ih k (by omega)

theorem getD_map {β γ : Type} (f : β → γ) (l : List β) (i : Nat) (d : γ) (d' : β)
    (h : i < l.length) : (l.map f).getD i d = f (l.getD i d') := by
  induction l generalizing i with
  | nil => simp at h
  | cons x xs ih =>
    cases i with
    | zero => rfl
    | succ n => simpa [List.getD] using ih n (by simpa using h)

theorem getD_range_map {β : Type} (n : Nat) (f : Nat → β) (i : Nat) (d : β)
    (h : i < n) : ((List.range n).map f).getD i d = f i := by
  have hl : i < (List.range n).length := by simpa using h
  rw [getD_map f (List.range n) i d 0 hl]
  simp [List.getD_eq_getElem?_getD, List.getElem?_range h]

theorem range_map_getD {β : Type} (l : List β) (d : β) :
    (List.range l.length).map (fun i => l.getD i d) = l := by
  induction l with
  | nil => rfl
  | cons x xs ih =>
    rw [List.length_cons, List.range_succ_eq_map, List.map_cons, List.map_map]
    refine congrArg (x :: ·) ?_
    have hcomp : ((fun i => (x :: xs).getD i d) ∘ Nat.succ) = (fun i => xs.getD i d) := by
      funext i; rfl
    rw [hcomp, ih]

theorem getD_zipWith {β γ δ : Type} (f : β → γ → δ) (l₁ : List β) (l₂ : List γ)
    (i : Nat) (d : δ) (d₁ : β) (d₂ : γ) (h₁ : i < l₁.length) (h₂ : i < l₂.length) :
    (List.zipWith f l₁ l₂).getD i d = f (l₁.getD i d₁) (l₂.getD i d₂) := by
  induction l₁ generalizing l₂ i with
  | nil => simp at h₁
  | cons x xs ih =>
    cases l₂ with
    | nil => simp at h₂
    | cons y ys =>
      cases i with
      | zero => rfl
      | succ n =>
        simpa [List.getD] using ih ys n (by simpa using h₁) (by simpa using h₂)

theorem updAt_id {β : Type} (i : Nat) (l : List β) : updAt i (fun x => x) l = l := by
  induction l generalizing i with
  | nil => cases i <;> rfl
  | cons x xs ih =>
    cases i with
    | zero => rfl
    | succ n => simpa [updAt] using ih n

theorem foldl_updAt_fixed {β γ : Type} (p : Nat) (g : γ → β → β) (l : List γ) (m : List β) :
    l.foldl (fun m x => updAt p (g x) m) m
      = updAt p (fun r => l.foldl (fun r x => g x r) r) m := by
  induction l generalizing m with
  | nil => simp [updAt_id]
  | cons x xs ih =>
    simp only [List.foldl_cons]
    rw [ih, updAt_updAt]

/-! ### Lemmas about `buildPE` -/

theorem buildPE_eq_updAt_fold (F : NumOps α) (L E : Nat) :
    buildPE F L E = (List.range L).foldl
      (fun m pos => updAt pos (peRow F E pos) m) (zerosMat L E) := by
  unfold buildPE
  have hstep : (fun (m : Mat α) (pos : Nat) =>
      (List.range (E / 2)).foldl (fun m i =>
        setEntry (setEntry m pos (2 * i) (F.sinf (peArg F E pos i)))
          pos (2 * i + 1) (F.cosf (peArg F E pos i))) m)
      = fun m pos => updAt pos (peRow F E pos) m := by
    funext m pos
    have hbody : (fun (m : Mat α) (i : Nat) =>
        setEntry (setEntry m pos (2 * i) (F.sinf (peArg F E pos i)))
          pos (2 * i + 1) (F.cosf (peArg F E pos i)))
        = fun m i => updAt pos (fun r => peRowStep F E pos r i) m := by
      funext m i
      unfold setEntry peRowStep
      rw [updAt_updAt]
    rw [hbody, foldl_updAt_fixed]
    rfl
  rw [hstep]

theorem length_foldl_updAt {β γ : Type} (g : γ → List β → List β)
    (hg : ∀ x r, (g x r).length = r.length) (l : List γ) (init : List β) :
    (l.foldl (fun m x => g x m) init).length = init.length := by
  induction l generalizing init with
  | nil => rfl
  | cons x xs ih => simpa [List.foldl_cons, hg] using ih (g x init)

theorem getD_foldl_updAt_range {β : Type} (fr : Nat → List β → List β) (n : Nat)
    (init : List (List β)) (p : Nat) (hp : p < init.length) :
    ((List.range n).foldl (fun m pos => updAt pos (fr pos) m) init).getD p []
      = if p < n then fr p (init.getD p []) else init.getD p [] := by
  induction n with
  | zero => simp
  | succ k ih =>
    rw [List.range_succ, List.foldl_append, List.foldl_cons, List.foldl_nil]
    by_cases hpk : p = k
    · subst hpk
      have hlen : p < ((List.range p).foldl
          (fun m pos => updAt pos (fr pos) m) init).length := by
        rw [length_foldl_updAt (fun pos m => updAt pos (fr pos) m)
          (fun x r => length_updAt x (fr x) r)]
        exact hp
      rw [getD_updAt_eq p (fr p) _ [] hlen, ih]
      simp [Nat.lt_irrefl, Nat.lt_succ_self]
    · rw [getD_updAt_ne k p (fr k) _ [] (fun hc => hpk hc.symm), ih]
      by_cases hlt : p < k
      · simp [hlt, Nat.lt_succ_of_lt hlt]
      · have h1 : ¬ p < k + 1 := by omega
        simp [hlt, h1]

theorem length_peRowStep (F : NumOps α) (E pos : Nat) (r : Vec α) (i : Nat) :
    (peRowStep F E pos r i).length = r.length := by
  unfold peRowStep
  rw [length_updAt, length_updAt]

theorem length_peRow_fold (F : NumOps α) (E pos n : Nat) (r : Vec α) :
    ((List.range n).foldl (peRowStep F E pos) r).length = r.length := by
  induction n with
  | zero => rfl
  | succ k ih =>
    rw [List.range_succ, List.foldl_append, List.foldl_cons, List.foldl_nil,
      length_peRowStep, ih]

theorem getD_peRowStep_ne (F : NumOps α) (E pos : Nat) (r : Vec α) (i j : Nat)
    (h1 : j ≠ 2 * i) (h2 : j ≠ 2 * i + 1) :
    (peRowStep F E pos r i).getD j 0 = r.getD j 0 := by
  unfold peRowStep
  rw [getD_updAt_ne _ _ _ _ _ (fun hc => h2 hc.symm),
    getD_updAt_ne _ _ _ _ _ (fun hc => h1 hc.symm)]

theorem getD_peRowStep_sin (F : NumOps α) (E pos : Nat) (r : Vec α) (i : Nat)
    (h : 2 * i < r.length) :
    (peRowStep F E pos r i).getD (2 * i) 0 = F.sinf (peArg F E pos i) := by
  unfold peRowStep
  have hne : (2 * i + 1 : Nat) ≠ 2 * i := by omega
  rw [getD_updAt_ne _ _ _ _ _ hne, getD_updAt_eq _ _ _ _ h]

theorem getD_peRowStep_cos (F : NumOps α) (E pos : Nat) (r : Vec α) (i : Nat)
    (h : 2 * i + 1 < r.length) :
    (peRowStep F E pos r i).getD (2 * i + 1) 0 = F.cosf (peArg F E pos i) := by
  unfold peRowStep
  rw [getD_updAt_eq _ _ _ _ (by rw [length_updAt]; exact h)]

theorem getD_peRow_fold (F : NumOps α) (E pos n : Nat) (hn : n ≤ E / 2)
    (r : Vec α) (hr : r.length = E) (i : Nat) :
    (((List.range n).foldl (peRowStep F E pos) r).getD (2 * i) 0
        = if i < n then F.sinf (peArg F E pos i) else r.getD (2 * i) 0)
    ∧ (((List.range n).foldl (peRowStep F E pos) r).getD (2 * i + 1) 0
        = if i < n then F.cosf (peArg F E pos i) else r.getD (2 * i + 1) 0) := by
  induction n with
  | zero => simp
  | succ k ih =>
    have hk : k ≤ E / 2 := Nat.le_of_succ_le hn
    have hkE : 2 * k + 1 < E := by omega
    have hlen : ((List.range k).foldl (peRowStep F E pos) r).length = E := by
      rw [length_peRow_fold]; exact hr
    rw [List.range_succ, List.foldl_append, List.foldl_cons, List.foldl_nil]
    rcases Nat.lt_trichotomy i k with hik | hik | hik
    · rw [getD_peRowStep_ne F E pos _ k (2 * i) (by omega) (by omega),
        getD_peRowStep_ne F E pos _ k (2 * i + 1) (by omega) (by omega)]
      rcases ih hk with ⟨ihs, ihc⟩
      rw [ihs, ihc]
      simp [hik, Nat.lt_succ_of_lt hik]
    · subst hik
      constructor
      · rw [getD_peRowStep_sin F E pos _ i (by rw [hlen]; omega)]
        simp
      · rw [getD_peRowStep_cos F E pos _ i (by rw [hlen]; omega)]
        simp
    · rw [getD_peRowStep_ne F E pos _ k (2 * i) (by omega) (by omega),
        getD_peRowStep_ne F E pos _ k (2 * i + 1) (by omega) (by omega)]
      rcases ih hk with ⟨ihs, ihc⟩
      rw [ihs, ihc]
      have hnk : ¬ i < k := by omega
      have hnk1 : ¬ i < k + 1 := by omega
      simp [hnk, hnk1]

/-! ### Lemmas about broadcasting addition -/

theorem getD_mem {β : Type} (l : List β) (i : Nat) (d : β) (h : i < l.length) :
    l.getD i d ∈ l := by
  induction l generalizing i with
  | nil => simp at h
  | cons x xs ih =>
    cases i with
    | zero => exact List.mem_cons_self x xs
    | succ n =>
      exact List.mem_cons_of_mem x (ih n (by simpa using h))

theorem bget_eq_getD {β : Type} (l : List β) (n i : Nat) (d : β)
    (hl : l.length = n) (hi : i < n) : bget l i d = l.getD i d := by
  unfold bget
  by_cases h : l.length = 1
  · have hi0 : i = 0 := by omega
    simp [h, hi0]
  · simp [h]

theorem bcastLen_same (a : Nat) : bcastLen a a = some a := by
  simp [bcastLen]

theorem bcastLen_one_right (a : Nat) : bcastLen a 1 = some a := by
  unfold bcastLen
  by_cases h : a = 1 <;> simp [h]

theorem bcastLen_none (a b : Nat) (hab : a ≠ b) (ha : a ≠ 1) (hb : b ≠ 1) :
    bcastLen a b = none := by
  simp [bcastLen, hab, ha, hb]

theorem rect3_len (x : T3 α) (b s e : Nat) (hx : rect3 x b s e) : x.length = b :=
  hx.1

theorem rect3_rowLen (x : T3 α) (b s e : Nat) (hx : rect3 x b s e) (hb : 0 < b) :
    rowLen x = s := by
  rcases x with _ | ⟨m, ms⟩
  · have hb0 : b = 0 := by simpa using hx.1.symm
    omega
  · exact (hx.2 m (List.mem_cons_self m ms)).1

theorem rect3_colLen (x : T3 α) (b s e : Nat) (hx : rect3 x b s e) (hb : 0 < b)
    (hs : 0 < s) : colLen x = e := by
  rcases x with _ | ⟨m, ms⟩
  · have hb0 : b = 0 := by simpa using hx.1.symm
    omega
  · have hm := hx.2 m (List.mem_cons_self m ms)
    rcases m with _ | ⟨r, rs⟩
    · have hs0 : s = 0 := by simpa using hm.1.symm
      omega
    · exact hm.2 r (List.mem_cons_self r rs)

theorem get3b_eq_get3 (x : T3 α) (b s e bi si j : Nat) (hx : rect3 x b s e)
    (hbi : bi < b) (hsi : si < s) (hj : j < e) :
    get3b x bi si j = get3 x bi si j := by
  unfold get3b get3
  have hxl : x.length = b := hx.1
  rw [bget_eq_getD x b bi [] hxl hbi]
  have hmem : x.getD bi [] ∈ x := getD_mem x bi [] (by omega)
  have hm := hx.2 _ hmem
  rw [bget_eq_getD _ s si [] hm.1 hsi]
  have hrmem : (x.getD bi []).getD si [] ∈ x.getD bi [] :=
    getD_mem _ si [] (by rw [hm.1]; exact hsi)
  rw [bget_eq_getD _ e j 0 (hm.2 _ hrmem) hj]

theorem broadcastAdd3_same (x y : T3 α) (b s e : Nat) (hx : rect3 x b s e)
    (hy : rect3 y b s e) (hb : 0 < b) (hs : 0 < s) :
    ∃ z, broadcastAdd3 x y = some z ∧ rect3 z b s e ∧
      ∀ bi si j, bi < b → si < s → j < e →
        get3 z bi si j = get3 x bi si j + get3 y bi si j := by
  refine ⟨(List.range b).map (fun bi => (List.range s).map (fun si =>
    (List.range e).map (fun j => get3b x bi si j + get3b y bi si j))), ?_, ?_, ?_⟩
  · unfold broadcastAdd3
    rw [rect3_len x b s e hx, rect3_len y b s e hy,
      rect3_rowLen x b s e hx hb, rect3_rowLen y b s e hy hb,
      rect3_colLen x b s e hx hb hs, rect3_colLen y b s e hy hb hs,
      bcastLen_same, bcastLen_same, bcastLen_same]
  · refine ⟨by simp, ?_⟩
    intro m hm
    rcases List.mem_map.mp hm with ⟨bi, _, rfl⟩
    refine ⟨by simp, ?_⟩
    intro r hr
    rcases List.mem_map.mp hr with ⟨si, _, rfl⟩
    simp
  · intro bi si j hbi hsi hj
    unfold get3
    rw [getD_range_map b _ bi [] hbi, getD_range_map s _ si [] hsi,
      getD_range_map e _ j 0 hj,
      get3b_eq_get3 x b s e bi si j hx hbi hsi hj,
      get3b_eq_get3 y b s e bi si j hy hbi hsi hj]
    rfl

theorem broadcastAdd3_table (x : T3 α) (pe : Mat α) (b s e : Nat)
    (hx : rect3 x b s e) (hpe : rect2 pe s e) (hb : 0 < b) (hs : 0 < s) :
    ∃ z, broadcastAdd3 x [pe] = some z ∧ rect3 z b s e ∧
      ∀ bi si j, bi < b → si < s → j < e →
        get3 z bi si j = get3 x bi si j + getEntry pe si j := by
  have hy : rect3 ([pe] : T3 α) 1 s e := ⟨rfl, by intro m hm; simp at hm; rw [hm]; exact hpe⟩
  refine ⟨(List.range b).map (fun bi => (List.range s).map (fun si =>
    (List.range e).map (fun j => get3b x bi si j + get3b [pe] bi si j))), ?_, ?_, ?_⟩
  · unfold broadcastAdd3
    rw [rect3_len x b s e hx, rect3_rowLen x b s e hx hb, rect3_colLen x b s e hx hb hs]
    have h1 : (([pe] : T3 α)).length = 1 := rfl
    rw [h1, rect3_rowLen [pe] 1 s e hy (by omega), rect3_colLen [pe] 1 s e hy (by omega) hs,
      bcastLen_one_right, bcastLen_same, bcastLen_same]
  · refine ⟨by simp, ?_⟩
    intro m hm
    rcases List.mem_map.mp hm with ⟨bi, _, rfl⟩
    refine ⟨by simp, ?_⟩
    intro r hr
    rcases List.mem_map.mp hr with ⟨si, _, rfl⟩
    simp
  · intro bi si j hbi hsi hj
    unfold get3
    rw [getD_range_map b _ bi [] hbi, getD_range_map s _ si [] hsi,
      getD_range_map e _ j 0 hj,
      get3b_eq_get3 x b s e bi si j hx hbi hsi hj]
    have hbpe : get3b ([pe] : T3 α) bi si j = getEntry pe si j := by
      unfold get3b getEntry
      have h0 : bget ([pe] : T3 α) bi [] = pe := by
        unfold bget; rfl
      rw [h0, bget_eq_getD pe s si [] hpe.1 hsi]
      have hrmem : pe.getD si [] ∈ pe := getD_mem pe si [] (by rw [hpe.1]; exact hsi)
      rw [bget_eq_getD _ e j 0 (hpe.2 _ hrmem) hj]
    rw [hbpe]
    rfl

theorem broadcastAdd3_none_dim1 (x y : T3 α) (hne : rowLen x ≠ rowLen y)
    (h1 : rowLen x ≠ 1) (h2 : rowLen y ≠ 1) : broadcastAdd3 x y = none := by
  unfold broadcastAdd3
  rw [bcastLen_none (rowLen x) (rowLen y) hne h1 h2]
  cases bcastLen x.length y.length <;> cases bcastLen (colLen x) (colLen y) <;> rfl

/-! ### Lemmas about transpose and matrix multiplication -/

theorem rect2_rowLen {β : Type} (m : List (List β)) (r c : Nat) (h : rect2 m r c)
    (hr : 0 < r) : rowLen m = c := by
  rcases m with _ | ⟨row, rows⟩
  · have h0 : r = 0 := by simpa using h.1.symm
    omega
  · exact h.2 row (List.mem_cons_self row rows)

theorem length_transposeD {β : Type} (d : β) (m : List (List β)) :
    (transposeD d m).length = rowLen m := by
  simp [transposeD]

theorem rowLen_transposeD {β : Type} (d : β) (m : List (List β))
    (h : 0 < rowLen m) : rowLen (transposeD d m) = m.length := by
  unfold rowLen at h
  unfold transposeD rowLen
  rcases hn : (m.headD []).length with _ | n
  · omega
  · rw [List.range_succ_eq_map, List.map_cons]
    simp

theorem getD_transposeD {β : Type} (d : β) (m : List (List β)) (j : Nat)
    (hj : j < rowLen m) :
    (transposeD d m).getD j [] = m.map (fun r => r.getD j d) := by
  unfold transposeD
  exact getD_range_map (rowLen m) _ j [] hj

theorem getEntry_matmulM (a b : Mat α) (i j : Nat) (hi : i < a.length)
    (hj : j < rowLen b) :
    getEntry (matmulM a b) i j = dotV (a.getD i []) (b.map (fun r => r.getD j 0)) := by
  unfold getEntry matmulM
  rw [getD_map _ a i [] [] hi]
  have hjt : j < (transposeM b).length := by
    unfold transposeM
    rw [length_transposeD]
    exact hj
  rw [getD_map _ (transposeM b) j 0 [] hjt]
  unfold transposeM
  rw [getD_transposeD 0 b j hj]

theorem rect2_matmulM (a b : Mat α) (r : Nat) (ha : a.length = r) :
    rect2 (matmulM a b) r (rowLen b) := by
  constructor
  · simp [matmulM, ha]
  · intro row hrow
    rcases List.mem_map.mp hrow with ⟨row0, _, rfl⟩
    unfold transposeM
    rw [List.length_map, length_transposeD]

theorem getD_transposeM_twice (k : Mat α) (lk dk : Nat) (hk : rect2 k lk dk)
    (hdk : 0 < dk) (j : Nat) (hj : j < lk) :
    (transposeM (transposeM k)).getD j [] = k.getD j [] := by
  have hlk : 0 < lk := by omega
  have hrk : rowLen k = dk := rect2_rowLen k lk dk hk hlk
  have hrt : rowLen (transposeM k) = k.length := by
    unfold transposeM
    exact rowLen_transposeD 0 k (by rw [hrk]; exact hdk)
  have hjt : j < rowLen (transposeM k) := by rw [hrt, hk.1]; exact hj
  unfold transposeM
  rw [getD_transposeD 0 (transposeD 0 k) j hjt]
  unfold transposeD
  rw [List.map_map]
  have hcomp : ((fun r => List.getD r j 0) ∘ fun jj => k.map (fun r => r.getD jj 0))
      = fun jj => (k.getD j []).getD jj 0 := by
    funext jj
    exact getD_map _ k j 0 [] (by rw [hk.1]; exact hj)
  rw [hcomp, hrk]
  have hlen : (k.getD j []).length = dk :=
    hk.2 _ (getD_mem k j [] (by rw [hk.1]; exact hj))
  rw [← hlen]
  exact range_map_getD (k.getD j []) 0

theorem getEntry_scores (q k : Mat α) (lq lk dk : Nat) (hq : rect2 q lq dk)
    (hk : rect2 k lk dk) (hdk : 0 < dk) (i j : Nat) (hi : i < lq) (hj : j < lk) :
    getEntry (matmulM q (transposeM k)) i j = dotV (q.getD i []) (k.getD j []) := by
  have hlk : 0 < lk := by omega
  have hrk : rowLen k = dk := rect2_rowLen k lk dk hk hlk
  have hrt : rowLen (transposeM k) = k.length := by
    unfold transposeM
    exact rowLen_transposeD 0 k (by rw [hrk]; exact hdk)
  rw [getEntry_matmulM q (transposeM k) i j (by rw [hq.1]; exact hi)
    (by rw [hrt, hk.1]; exact hj)]
  have hrow : (transposeM (transposeM k)).getD j []
      = (transposeM k).map (fun r => r.getD j 0) := by
    have hj' : j < rowLen (transposeM k) := by rw [hrt, hk.1]; exact hj
    unfold transposeM
    unfold transposeM at hj'
    exact getD_transposeD 0 (transposeD 0 k) j hj'
  rw [← hrow, getD_transposeM_twice k lk dk hk hdk j hj]

theorem rect2_scores (q k : Mat α) (lq lk dk : Nat) (hq : rect2 q lq dk)
    (hk : rect2 k lk dk) (hdk : 0 < dk) :
    rect2 (matmulM q (transposeM k)) lq lk := by
  have hlkcase : rowLen (transposeM k) = lk ∨ lk = 0 := by
    by_cases hlk : 0 < lk
    · left
      have hrk : rowLen k = dk := rect2_rowLen k lk dk hk hlk
      unfold transposeM
      rw [rowLen_transposeD 0 k (by rw [hrk]; exact hdk), hk.1]
    · right; omega
  rcases hlkcase with hcase | hcase
  · rw [← hcase]
    exact rect2_matmulM q (transposeM k) lq hq.1
  · subst hcase
    have hk0 : k = [] := List.length_eq_zero.mp hk.1
    subst hk0
    have : transposeM ([] : Mat α) = [] := by
      unfold transposeM transposeD rowLen
      simp
    rw [this]
    constructor
    · simp [matmulM, hq.1]
    · intro row hrow
      rcases List.mem_map.mp hrow with ⟨row0, _, rfl⟩
      simp [transposeM, transposeD, rowLen]

/-! ### zipWith and map plumbing -/

theorem zipWith_pred {β γ δ : Type} (f : β → γ → δ) (P : δ → Prop)
    (l1 : List β) (l2 : List γ) (h : ∀ x ∈ l1, ∀ y ∈ l2, P (f x y)) :
    ∀ z ∈ List.zipWith f l1 l2, P z := by
  induction l1 generalizing l2 with
  | nil => simp
  | cons x xs ih =>
    cases l2 with
    | nil => simp
    | cons y ys =>
      intro z hz
      rw [List.zipWith_cons_cons] at hz
      rcases List.mem_cons.mp hz with rfl | hz
      · exact h x (by simp) y (by simp)
      · exact ih ys (fun a ha b hb => h a (by simp [ha]) b (by simp [hb])) z hz

theorem length_mapIdxFrom {β γ : Type} (f : Nat → β → γ) (s : Nat) (l : List β) :
    (mapIdxFrom f s l).length = l.length := by
  induction l generalizing s with
  | nil => rfl
  | cons x xs ih => simpa [mapIdxFrom] using ih (s + 1)

theorem getD_mapIdxFrom {β γ : Type} (f : Nat → β → γ) (s : Nat) (l : List β)
    (i : Nat) (d : γ) (d' : β) (h : i < l.length) :
    (mapIdxFrom f s l).getD i d = f (s + i) (l.getD i d') := by
  induction l generalizing s i with
  | nil => simp at h
  | cons x xs ih =>
    cases i with
    | zero => simp [mapIdxFrom]
    | succ n =>
      have := ih (s + 1) n (by simpa using h)
      simpa [mapIdxFrom, List.getD, Nat.add_comm, Nat.add_assoc, Nat.add_left_comm] using this

theorem getD_mapIdxL {β γ : Type} (f : Nat → β → γ) (l : List β) (i : Nat)
    (d : γ) (d' : β) (h : i < l.length) :
    (mapIdxL f l).getD i d = f i (l.getD i d') := by
  unfold mapIdxL
  simpa using getD_mapIdxFrom f 0 l i d d' h

theorem length_mapIdxL {β γ : Type} (f : Nat → β → γ) (l : List β) :
    (mapIdxL f l).length = l.length := length_mapIdxFrom f 0 l

/-! ### Lemmas about the attention kernel -/

theorem mem_mapIdxFrom {β γ : Type} (f : Nat → β → γ) (s : Nat) (l : List β)
    (z : γ) (hz : z ∈ mapIdxFrom f s l) : ∃ n x, x ∈ l ∧ z = f n x := by
  induction l generalizing s with
  | nil => simp [mapIdxFrom] at hz
  | cons x xs ih =>
    rcases List.mem_cons.mp hz with rfl | hz
    · exact ⟨s, x, List.mem_cons_self x xs, rfl⟩
    · rcases ih (s + 1) hz with ⟨n, y, hy, rfl⟩
      exact ⟨n, y, List.mem_cons_of_mem x hy, rfl⟩

theorem length_softmaxRow (expf : α → α) (r : Vec α) :
    (softmaxRow expf r).length = r.length := by
  simp [softmaxRow]

theorem rect2_maskFill2 (m s : Mat α) (r c : Nat) (hs : rect2 s r c) :
    rect2 (maskFill2 m s) r c := by
  unfold maskFill2
  constructor
  · rw [length_mapIdxL, hs.1]
  · intro row hrow
    rcases mem_mapIdxFrom _ 0 s row hrow with ⟨n, row0, hrow0, rfl⟩
    rw [length_mapIdxL]
    exact hs.2 row0 hrow0

theorem rect4_sdpMask (m : T3 α) (t : T4 α) (B H R C : Nat)
    (ht : rect4 t B H R C) : rect4 (sdpMask m t) B H R C := by
  unfold sdpMask
  constructor
  · rw [length_mapIdxL, ht.1]
  · intro x hx
    rcases mem_mapIdxFrom _ 0 t x hx with ⟨n, x0, hx0, rfl⟩
    have h3 := ht.2 x0 hx0
    constructor
    · rw [List.length_map, h3.1]
    · intro s hs
      rcases List.mem_map.mp hs with ⟨s0, hs0, rfl⟩
      exact rect2_maskFill2 _ s0 R C (h3.2 s0 hs0)

theorem rect4_softmax (F : NumOps α) (t : T4 α) (B H R C : Nat)
    (ht : rect4 t B H R C) :
    rect4 (t.map (fun bs => bs.map (fun s => s.map (softmaxRow F.expf)))) B H R C := by
  constructor
  · rw [List.length_map, ht.1]
  · intro x hx
    rcases List.mem_map.mp hx with ⟨x0, hx0, rfl⟩
    have h3 := ht.2 x0 hx0
    constructor
    · rw [List.length_map, h3.1]
    · intro s hs
      rcases List.mem_map.mp hs with ⟨s0, hs0, rfl⟩
      have h2 := h3.2 s0 hs0
      constructor
      · rw [List.length_map, h2.1]
      · intro r hr
        rcases List.mem_map.mp hr with ⟨r0, hr0, rfl⟩
        rw [length_softmaxRow]
        exact h2.2 r0 hr0

theorem rect4_sdpRawScores (F : NumOps α) (dk0 : Nat) (q k : T4 α)
    (B H lq lk dkq : Nat) (hq : rect4 q B H lq dkq) (hk : rect4 k B H lk dkq)
    (hdk : 0 < dkq) :
    rect4 (sdpRawScores F dk0 q k) B H lq lk := by
  unfold sdpRawScores
  constructor
  · rw [List.length_map, List.length_zipWith, hq.1, hk.1, Nat.min_self]
  · intro m hm
    rcases List.mem_map.mp hm with ⟨m0, hm0, rfl⟩
    have hP : rect3 m0 H lq lk := by
      refine zipWith_pred _ (fun z => rect3 z H lq lk) q k ?_ m0 hm0
      intro x hx y hy
      have hx3 := hq.2 x hx
      have hy3 := hk.2 y hy
      constructor
      · rw [List.length_zipWith, hx3.1, hy3.1, Nat.min_self]
      · intro s hs
        refine zipWith_pred _ (fun z => rect2 z lq lk) x y ?_ s hs
        intro qh hqh kh hkh
        exact rect2_scores qh kh lq lk dkq (hx3.2 qh hqh) (hy3.2 kh hkh) hdk
    constructor
    · rw [List.length_map, hP.1]
    · intro s hs
      rcases List.mem_map.mp hs with ⟨s0, hs0, rfl⟩
      have hs2 := hP.2 s0 hs0
      constructor
      · rw [List.length_map, hs2.1]
      · intro r hr
        rcases List.mem_map.mp hr with ⟨r0, hr0, rfl⟩
        rw [List.length_map]
        exact hs2.2 r0 hr0

theorem rect4_sdpMaskedScores (F : NumOps α) (dk0 : Nat) (q k : T4 α)
    (mask : Option (T3 α)) (B H lq lk dkq : Nat)
    (hq : rect4 q B H lq dkq) (hk : rect4 k B H lk dkq) (hdk : 0 < dkq) :
    rect4 (sdpMaskedScores F dk0 q k mask) B H lq lk := by
  cases mask with
  | none => exact rect4_sdpRawScores F dk0 q k B H lq lk dkq hq hk hdk
  | some m =>
    exact rect4_sdpMask m _ B H lq lk (rect4_sdpRawScores F dk0 q k B H lq lk dkq hq hk hdk)

theorem rect4_sdpSoftmaxWeights (F : NumOps α) (dk0 : Nat) (q k : T4 α)
    (mask : Option (T3 α)) (B H lq lk dkq : Nat)
    (hq : rect4 q B H lq dkq) (hk : rect4 k B H lk dkq) (hdk : 0 < dkq) :
    rect4 (sdpSoftmaxWeights F dk0 q k mask) B H lq lk := by
  unfold sdpSoftmaxWeights
  exact rect4_softmax F _ B H lq lk
    (rect4_sdpMaskedScores F dk0 q k mask B H lq lk dkq hq hk hdk)

theorem rect4_zip_matmul (w v : T4 α) (B H lq lk cv : Nat)
    (hw : rect4 w B H lq lk) (hv : rect4 v B H lk cv) (hlk : 0 < lk) :
    rect4 (List.zipWith (List.zipWith matmulM) w v) B H lq cv := by
  constructor
  · rw [List.length_zipWith, hw.1, hv.1, Nat.min_self]
  · intro m hm
    refine zipWith_pred _ (fun z => rect3 z H lq cv) w v ?_ m hm
    intro x hx y hy
    have hx3 := hw.2 x hx
    have hy3 := hv.2 y hy
    constructor
    · rw [List.length_zipWith, hx3.1, hy3.1, Nat.min_self]
    · intro s hs
      refine zipWith_pred _ (fun z => rect2 z lq cv) x y ?_ s hs
      intro wh hwh vh hvh
      have hrv : rowLen vh = cv := rect2_rowLen vh lk cv (hy3.2 vh hvh) hlk
      rw [← hrv]
      exact rect2_matmulM wh vh lq (hx3.2 wh hwh).1

theorem sdpForward_eq_weights (F : NumOps α) (S : ScaledDotProductAttention α)
    (training : Bool) (q k v : T4 α) (mask : Option (T3 α)) :
    sdpForward F S training q k v mask
      = List.zipWith (List.zipWith matmulM)
          (if S.dropout_rate > 0 ∧ training then
            S.drop (sdpSoftmaxWeights F S.dk q k mask)
          else sdpSoftmaxWeights F S.dk q k mask) v := by
  unfold sdpForward sdpSoftmaxWeights sdpMaskedScores sdpRawScores
  cases mask <;> rfl

theorem get4_sdpMask (m : T3 α) (t : T4 α) (b h i j : Nat)
    (hb : b < t.length) (hh : h < (t.getD b []).length)
    (hi : i < ((t.getD b []).getD h []).length)
    (hj : j < (((t.getD b []).getD h []).getD i []).length) :
    get4 (sdpMask m t) b h i j
      = if get3b m b i j = 0 then maskFillConstant else get4 t b h i j := by
  unfold sdpMask get4
  rw [getD_mapIdxL _ t b [] [] hb, getD_map _ _ h [] [] hh]
  unfold maskFill2
  rw [getD_mapIdxL _ _ i [] [] hi, getD_mapIdxL _ _ j 0 0 hj]
  rfl

theorem get4_sdpRawScores (F : NumOps α) (dk0 : Nat) (q k : T4 α)
    (B H lq lk dkq : Nat) (hq : rect4 q B H lq dkq) (hk : rect4 k B H lk dkq)
    (hdk : 0 < dkq) (b h i j : Nat) (hb : b < B) (hh : h < H)
    (hi : i < lq) (hj : j < lk) :
    get4 (sdpRawScores F dk0 q k) b h i j
      = dotV (((q.getD b []).getD h []).getD i []) (((k.getD b []).getD h []).getD j [])
        / F.sqrtf ((dk0 : α)) := by
  have hqb := hq.2 (q.getD b []) (getD_mem q b [] (by rw [hq.1]; exact hb))
  have hkb := hk.2 (k.getD b []) (getD_mem k b [] (by rw [hk.1]; exact hb))
  have hqh := hqb.2 ((q.getD b []).getD h [])
    (getD_mem _ h [] (by rw [hqb.1]; exact hh))
  have hkh := hkb.2 ((k.getD b []).getD h [])
    (getD_mem _ h [] (by rw [hkb.1]; exact hh))
  have hzb : b < (List.zipWith
      (List.zipWith (fun qh kh => matmulM qh (transposeM kh))) q k).length := by
    rw [List.length_zipWith, hq.1, hk.1, Nat.min_self]
    exact hb
  unfold sdpRawScores get4
  rw [getD_map _ _ b [] [] hzb,
    getD_zipWith _ q k b [] [] [] (by rw [hq.1]; exact hb) (by rw [hk.1]; exact hb)]
  have hzh : h < (List.zipWith (fun qh kh => matmulM qh (transposeM kh))
      (q.getD b []) (k.getD b [])).length := by
    rw [List.length_zipWith, hqb.1, hkb.1, Nat.min_self]
    exact hh
  rw [getD_map _ _ h [] [] hzh,
    getD_zipWith _ _ _ h [] [] [] (by rw [hqb.1]; exact hh) (by rw [hkb.1]; exact hh)]
  have hscore : rect2 (matmulM ((q.getD b []).getD h [])
      (transposeM ((k.getD b []).getD h []))) lq lk :=
    rect2_scores _ _ lq lk dkq hqh hkh hdk
  rw [getD_map _ _ i [] [] (by rw [hscore.1]; exact hi)]
  have hrow : (matmulM ((q.getD b []).getD h [])
      (transposeM ((k.getD b []).getD h []))).getD i [] ∈
      matmulM ((q.getD b []).getD h []) (transposeM ((k.getD b []).getD h [])) :=
    getD_mem _ i [] (by rw [hscore.1]; exact hi)
  rw [getD_map _ _ j 0 0 (by rw [hscore.2 _ hrow]; exact hj)]
  have hentry := getEntry_scores ((q.getD b []).getD h []) ((k.getD b []).getD h [])
    lq lk dkq hqh hkh hdk i j hi hj
  unfold getEntry at hentry
  rw [hentry]

/-! ### Lemmas about flattening, `view` and linear layers -/

theorem length_flat2 {β : Type} (m : List (List β)) (r c : Nat) (h : rect2 m r c) :
    (flat2 m).length = r * c := by
  induction m generalizing r with
  | nil =>
    have h0 : r = 0 := by simpa using h.1.symm
    simp [flat2, h0]
  | cons row rows ih =>
    cases r with
    | zero =>
      have h0 := h.1
      simp at h0
    | succ rr =>
      have hrow : row.length = c := h.2 row (List.mem_cons_self row rows)
      have hrest : rect2 rows rr c :=
        ⟨by simpa using h.1, fun x hx => h.2 x (List.mem_cons_of_mem _ hx)⟩
      show (row ++ flat2 rows).length = (rr + 1) * c
      rw [List.length_append, hrow, ih rr hrest]
      ring

theorem length_flat3 {β : Type} (t : List (List (List β))) (a b c : Nat)
    (h : rect3 t a b c) : (flat3 t).length = a * (b * c) := by
  induction t generalizing a with
  | nil =>
    have h0 : a = 0 := by simpa using h.1.symm
    simp [flat3, h0]
  | cons m ms ih =>
    cases a with
    | zero =>
      have h0 := h.1
      simp at h0
    | succ aa =>
      have hm : rect2 m b c := h.2 m (List.mem_cons_self m ms)
      have hrest : rect3 ms aa b c :=
        ⟨by simpa using h.1, fun x hx => h.2 x (List.mem_cons_of_mem _ hx)⟩
      show (flat2 m ++ flat3 ms).length = (aa + 1) * (b * c)
      rw [List.length_append, length_flat2 m b c hm, ih aa hrest]
      ring

theorem view4_eq_none (b l h dkk : Nat) (t : T3 α)
    (hne : (flat3 t).length ≠ b * (l * (h * dkk))) :
    view4 b l h dkk t = none := by
  unfold view4
  simp [hne]

theorem view4_eq_some (b l h dkk : Nat) (t : T3 α)
    (heq : (flat3 t).length = b * (l * (h * dkk))) :
    view4 b l h dkk t = some ((chunks (l * (h * dkk)) (flat3 t)).map (fun bb =>
      (chunks (h * dkk) bb).map (fun r => chunks dkk r))) := by
  unfold view4
  simp [heq]

theorem rect3_linearT3 (L : LinearLayer α) (t : T3 α) (b s e eo : Nat)
    (ht : rect3 t b s e) (hw : L.weight.length = eo) (hbias : L.bias.length = eo) :
    rect3 (linearT3 L t) b s eo := by
  constructor
  · simp [linearT3, ht.1]
  · intro m hm
    rcases List.mem_map.mp hm with ⟨m0, hm0, rfl⟩
    have h2 := ht.2 m0 hm0
    constructor
    · simp [linearM, h2.1]
    · intro r hr
      rcases List.mem_map.mp hr with ⟨r0, _, rfl⟩
      simp [linearRow, hw, hbias]

theorem rect3_embedLookup (table : Mat α) (ids : List (List Nat)) (b L e V : Nat)
    (hlen : ids.length = b) (hrows : ∀ r ∈ ids, r.length = L)
    (htable : rect2 table V e) (hvalid : ∀ r ∈ ids, ∀ id ∈ r, id < V) :
    rect3 (embedLookup table ids) b L e := by
  constructor
  · simp [embedLookup, hlen]
  · intro m hm
    rcases List.mem_map.mp hm with ⟨r, hr, rfl⟩
    constructor
    · simp [hrows r hr]
    · intro row hrow
      rcases List.mem_map.mp hrow with ⟨id, hid, rfl⟩
      exact htable.2 _ (getD_mem table id [] (by rw [htable.1]; exact hvalid r hr id hid))

/-! ### Lemmas about normalization statistics -/

theorem zipWith_replicate_left {β γ δ : Type} (f : β → γ → δ) (n : Nat) (a : β)
    (l : List γ) (h : l.length = n) :
    List.zipWith f (List.replicate n a) l = l.map (f a) := by
  induction l generalizing n with
  | nil => simp
  | cons x xs ih =>
    cases n with
    | zero => simp at h
    | succ m =>
      rw [List.replicate_succ, List.zipWith_cons_cons, List.map_cons,
        ih m (by simpa using h)]

theorem zipWith_replicate_right {β γ δ : Type} (f : β → γ → δ) (n : Nat) (a : γ)
    (l : List β) (h : l.length = n) :
    List.zipWith f l (List.replicate n a) = l.map (fun x => f x a) := by
  induction l generalizing n with
  | nil => simp
  | cons x xs ih =>
    cases n with
    | zero => simp at h
    | succ m =>
      rw [List.replicate_succ, List.zipWith_cons_cons, List.map_cons,
        ih m (by simpa using h)]

theorem sum_map_sub_const (l : List α) (c : α) :
    (l.map (fun v => v - c)).sum = l.sum - (l.length : α) * c := by
  induction l with
  | nil => simp
  | cons x xs ih =>
    rw [List.map_cons, List.sum_cons, ih, List.sum_cons, List.length_cons]
    push_cast
    ring

theorem sum_map_mul_const (l : List α) (c : α) (f : α → α) :
    (l.map (fun v => f v * c)).sum = (l.map f).sum * c := by
  induction l with
  | nil => simp
  | cons x xs ih =>
    rw [List.map_cons, List.sum_cons, ih, List.map_cons, List.sum_cons]
    ring

theorem sum_centered (x : Vec α) (hx : 0 < x.length) :
    (x.map (fun v => v - meanRow x)).sum = 0 := by
  rw [sum_map_sub_const]
  unfold meanRow
  have hne : ((x.length : α)) ≠ 0 := by
    have : (0 : α) < (x.length : α) := by exact_mod_cast hx
    exact ne_of_gt this
  field_simp

theorem layerNormRow_ones (sqrtf : α → α) (n : Nat) (eps : α) (x : Vec α)
    (hx : x.length = n) :
    layerNormRow sqrtf (mkLayerNorm n eps) x
      = x.map (fun v => (v - meanRow x) / (stdRow sqrtf x + eps)) := by
  unfold layerNormRow mkLayerNorm
  rw [zipWith_replicate_left _ n 1 x hx]
  rw [zipWith_replicate_right _ n 0 _ (by simp [hx])]
  rw [List.map_map]
  simp [Function.comp, one_mul]

theorem meanRow_eq (l : Vec α) : meanRow l = l.sum / (l.length : α) := rfl

theorem meanRow_div_const (x : Vec α) (d : α) (hx : 0 < x.length) :
    meanRow (x.map (fun v => (v - meanRow x) / d)) = 0 := by
  have hfun : (fun v => (v - meanRow x) / d) = fun v => (v - meanRow x) * d⁻¹ := by
    funext v
    rw [div_eq_mul_inv]
  rw [meanRow_eq (x.map (fun v => (v - meanRow x) / d)), List.length_map, hfun,
    sum_map_mul_const x d⁻¹ (fun v => v - meanRow x), sum_centered x hx,
    zero_mul, zero_div]

theorem varRow_div_const (x : Vec α) (d : α) (hx : 0 < x.length) :
    varRow (x.map (fun v => (v - meanRow x) / d)) = varRow x / d ^ 2 := by
  unfold varRow
  rw [List.length_map]
  rw [show meanRow (x.map (fun v => (v - meanRow x) / d)) = 0 from
    meanRow_div_const x d hx]
  rw [List.map_map]
  have hfun : ((fun v => (v - 0) ^ 2) ∘ fun v => (v - meanRow x) / d)
      = fun v => (v - meanRow x) ^ 2 * (d ^ 2)⁻¹ := by
    funext v
    rw [Function.comp]
    rw [sub_zero, div_pow, div_eq_mul_inv]
  rw [hfun, sum_map_mul_const x ((d ^ 2)⁻¹) (fun v => (v - meanRow x) ^ 2)]
  rw [div_eq_mul_inv, div_eq_mul_inv, mul_right_comm]
  rw [div_eq_mul_inv]

theorem varRow_nonneg_real (x : Vec ℝ) (hn : 2 ≤ x.length) : 0 ≤ varRow x := by
  unfold varRow
  apply div_nonneg
  · apply List.sum_nonneg
    intro a ha
    rcases List.mem_map.mp ha with ⟨v, _, rfl⟩
    exact sq_nonneg _
  · have : (2 : ℝ) ≤ (x.length : ℝ) := by exact_mod_cast hn
    linarith

theorem stdRow_div_const_real (x : Vec ℝ) (d : ℝ) (hd : 0 < d) (hn : 2 ≤ x.length) :
    stdRow Real.sqrt (x.map (fun v => (v - meanRow x) / d))
      = stdRow Real.sqrt x / d := by
  unfold stdRow
  rw [varRow_div_const x d (by omega)]
  rw [Real.sqrt_div (varRow_nonneg_real x hn)]
  rw [Real.sqrt_sq hd.le]

theorem rect4_bounds {β : Type} (t : List (List (List (List β)))) (B H R C : Nat)
    (ht : rect4 t B H R C) (b h i j : Nat) (hb : b < B) (hh : h < H)
    (hi : i < R) (hj : j < C) :
    b < t.length ∧ h < (t.getD b []).length ∧ i < ((t.getD b []).getD h []).length
      ∧ j < (((t.getD b []).getD h []).getD i []).length := by
  have h3 := ht.2 _ (getD_mem t b [] (by rw [ht.1]; exact hb))
  have h2 := h3.2 _ (getD_mem _ h [] (by rw [h3.1]; exact hh))
  have h1 := h2.2 _ (getD_mem _ i [] (by rw [h2.1]; exact hi))
  exact ⟨by rw [ht.1]; exact hb, by rw [h3.1]; exact hh,
    by rw [h2.1]; exact hi, by rw [h1]; exact hj⟩

theorem firstInputAux (table pe : Mat α) (ids : List (List Nat)) (b L e V : Nat)
    (hlen : ids.length = b) (hrows : ∀ r ∈ ids, r.length = L)
    (htable : rect2 table V e) (hvalid : ∀ r ∈ ids, ∀ id ∈ r, id < V)
    (hpe : rect2 pe L e) (hb : 0 < b) (hL : 0 < L) :
    ∃ z, (posEncForward pe (embedLookup table ids)).bind
        (fun p => broadcastAdd3 (embedLookup table ids) p) = some z
      ∧ rect3 z b L e
      ∧ ∀ bi si j, bi < b → si < L → j < e →
          get3 z bi si j = get3 (embedLookup table ids) bi si j
            + (get3 (embedLookup table ids) bi si j + getEntry pe si j) := by
  have hemb := rect3_embedLookup table ids b L e V hlen hrows htable hvalid
  obtain ⟨p, hp, hpr, hpentry⟩ :=
    broadcastAdd3_table (embedLookup table ids) pe b L e hemb hpe hb hL
  obtain ⟨z, hz, hzr, hzentry⟩ :=
    broadcastAdd3_same (embedLookup table ids) p b L e hemb hpr hb hL
  have hbind : (posEncForward pe (embedLookup table ids)).bind
      (fun q => broadcastAdd3 (embedLookup table ids) q)
      = broadcastAdd3 (embedLookup table ids) p := by
    unfold posEncForward
    rw [hp]
    rfl
  refine ⟨z, by rw [hbind, hz], hzr, ?_⟩
  intro bi si j h1 h2 h3
  rw [hzentry bi si j h1 h2 h3, hpentry bi si j h1 h2 h3]

/-! ### Claim theorems -/

/-- C8 (confirmed): the positional table built by `PositionalEncoding.__init__`
satisfies, for every `pos < max_len` and `i < embedding_dim / 2`,
`PE[pos, 2i] = sin(pos / 10000^(2i/embedding_dim))` and
`PE[pos, 2i+1] = cos(pos / 10000^(2i/embedding_dim))`; `buildPE` is a pure
function of `max_len` and `embedding_dim` (given the fixed math functions), so
the table is a deterministic function of the configuration alone. -/
theorem positional_table_formula (F : NumOps α) (max_len embedding_dim pos i : Nat)
    (hpos : pos < max_len) (hi : i < embedding_dim / 2) :
    getEntry (buildPE F max_len embedding_dim) pos (2 * i)
        = F.sinf ((pos : α) / F.powf 10000 (((2 * i : Nat) : α) / (embedding_dim : α)))
    ∧ getEntry (buildPE F max_len embedding_dim) pos (2 * i + 1)
        = F.cosf ((pos : α) / F.powf 10000 (((2 * i : Nat) : α) / (embedding_dim : α))) := by
  have hfold := buildPE_eq_updAt_fold F max_len embedding_dim
  have hzl : (zerosMat max_len embedding_dim : Mat α).length = max_len := by
    simp [zerosMat]
  have hrowz : (zerosMat max_len embedding_dim : Mat α).getD pos []
      = List.replicate embedding_dim 0 := by
    unfold zerosMat
    exact getD_replicate max_len pos _ [] hpos
  have hrow_eq : (buildPE F max_len embedding_dim).getD pos []
      = peRow F embedding_dim pos (List.replicate embedding_dim 0) := by
    rw [hfold, getD_foldl_updAt_range (peRow F embedding_dim) max_len _ pos
      (by rw [hzl]; exact hpos), if_pos hpos, hrowz]
  have hlen : (List.replicate embedding_dim (0 : α)).length = embedding_dim := by simp
  have hentries := getD_peRow_fold F embedding_dim pos (embedding_dim / 2)
    (le_refl _) (List.replicate embedding_dim 0) hlen i
  constructor
  · unfold getEntry
    rw [hrow_eq]
    unfold peRow
    rw [hentries.1, if_pos hi]
    rfl
  · unfold getEntry
    rw [hrow_eq]
    unfold peRow
    rw [hentries.2, if_pos hi]
    rfl

/-- Witness for C8 at `max_len = 2`, `embedding_dim = 2`, `pos = 1`, `i = 0`. -/
theorem positional_table_formula_witness :
    getEntry (buildPE ratOps 2 2) 1 (2 * 0)
        = ratOps.sinf ((1 : ℚ) / ratOps.powf 10000 (((2 * 0 : Nat) : ℚ) / ((2 : Nat) : ℚ)))
    ∧ getEntry (buildPE ratOps 2 2) 1 (2 * 0 + 1)
        = ratOps.cosf ((1 : ℚ) / ratOps.powf 10000 (((2 * 0 : Nat) : ℚ) / ((2 : Nat) : ℚ))) :=
  positional_table_formula ratOps 2 2 1 0 (by decide) (by decide)

theorem option_bind_assoc {β γ δ : Type} (x : Option β) (f : β → Option γ)
    (g : γ → Option δ) :
    ((x >>= f) >>= g) = (x >>= fun a => f a >>= g) := by
  cases x <;> rfl

theorem option_pure_bind {β γ : Type} (a : β) (f : β → Option γ) :
    ((pure a : Option β) >>= f) = f a := rfl

/-- C1 (corrected): `DecoderLayer.forward` is the composition of three stages;
the second stage (`dlStage2`) calls the attention with `query = key` = the
encoder output and `value` = the stage-1 output (the positional arguments of
source line 204), and its result is LayerNorm of that attention output plus
the stage-1 output — not `query` = stage-1 output, `key = value` = encoder
output as the spec's sentence states. -/
theorem decoderLayer_stages (F : NumOps α) (L : DecoderLayer α) (training : Bool)
    (encoder_out target : T3 α) (x_mask target_mask : Option (T3 α)) :
    decoderLayerForward F L training encoder_out target x_mask target_mask
      = (dlStage1 F L training target target_mask >>= fun out1 =>
          dlStage2 F L training encoder_out out1 x_mask >>= fun out2 =>
            dlStage3 F L training out2) := by
  unfold decoderLayerForward dlStage1 dlStage2 dlStage3
  simp only [option_bind_assoc, option_pure_bind]

set_option maxRecDepth 16000 in
/-- C1 counterexample: at a concrete decoder layer and concrete inputs, the
source's second stage (`query = key` = encoder output, `value` = stage-1
output) differs from the spec's claimed second stage (`query` = stage-1
output, `key = value` = encoder output). -/
theorem decoderLayer_stage2_counterexample :
    dlStage2 ratOps decLayer2 false [[[1, 3]]] [[[2, 5]]] none
      ≠ dlStage2Claim ratOps decLayer2 false [[[1, 3]]] [[[2, 5]]] none := by
  norm_num [dlStage2, dlStage2Claim, decLayer2, mha2, ln2,
    mkMultiHeadAttention, mkLayerNorm, idLin2, ratOps, mhaForward, view4, view3, chunks,
    chunksF, flat4, flat3, flat2, tr12, transposeD, transposeM, sdpForward, matmulM, dotV,
    softmaxRow, linearT3, linearM, linearRow, rowLen, List.range_succ, broadcastAdd3,
    bcastLen, colLen, get3b, bget, layerNormT3, layerNormRow, meanRow, varRow, stdRow]
  simp only [List.replicate, List.zipWith]
  norm_num

/-- C3 (corrected): `MultiHeadAttention.__init__` performs no divisibility
validation: every configuration constructs successfully, with
`dk = embedding_dim / head` rounded down.  `(head 3, embedding_dim 10)` yields
`dk = 3`, and the incompatibility only surfaces at forward time, where the
reshape fails; `(head 8, embedding_dim 512)` yields `dk = 64`. -/
theorem mkMultiHeadAttention_no_validation :
    (∀ (head embedding_dim : Nat) (rate : α) (dq dkl dv dd : LinearLayer α)
        (drop : T4 α → T4 α),
      (mkMultiHeadAttention head embedding_dim rate dq dkl dv dd drop).dk
        = embedding_dim / head)
    ∧ (mkMultiHeadAttention 3 10 (0 : ℚ) zeroLin10 zeroLin10 zeroLin10 zeroLin10 id).dk = 3
    ∧ (mkMultiHeadAttention 8 512 (0 : ℚ) zeroLin10 zeroLin10 zeroLin10 zeroLin10 id).dk = 64
    ∧ mhaForward ratOps (mkMultiHeadAttention 3 10 0 zeroLin10 zeroLin10 zeroLin10 zeroLin10 id)
        false ones10 ones10 ones10 none = none := by
  refine ⟨fun _ _ _ _ _ _ _ _ => rfl, rfl, rfl, ?_⟩
  norm_num [mhaForward, mkMultiHeadAttention, zeroLin10, ones10, ratOps, view4, view3, chunks,
    chunksF, flat3, flat2, tr12, transposeD, transposeM, sdpForward, matmulM, dotV, softmaxRow,
    linearT3, linearM, linearRow, rowLen, List.range_succ, List.replicate]

/-- C3 counterexample: with `embedding_dim = 10` and `head_count = 3` (not
divisible) the construction does not fail with a configuration error: it
returns a module, with `dk = 10 / 3 = 3`. -/
theorem mkMultiHeadAttention_counterexample :
    (10 % 3 ≠ 0)
    ∧ (mkMultiHeadAttention 3 10 (0 : ℚ) zeroLin10 zeroLin10 zeroLin10 zeroLin10 id).dk = 3 :=
  ⟨by decide, rfl⟩

/-- C2 (corrected): for a well-shaped batch of token ids, the tensor handed to
the first `EncoderLayer` (and, symmetrically, to the first `DecoderLayer`)
equals `embedding(x) + (embedding(x) + PE)` entrywise — the embedding is added
twice, because line 177 (resp. line 230) adds `embedding_out` to
`positionalEncoding(embedding_out)` although the latter already returns
`embedding_out + PE` — and not `embedding(x) + PE` as the spec states. -/
theorem firstInput_adds_embedding_twice (E : Encoder α) (D : Decoder α)
    (xe xd : List (List Nat)) (b L e V bd Ld ed Vd : Nat)
    (hxe : xe.length = b) (hxer : ∀ r ∈ xe, r.length = L)
    (hte : rect2 E.embedding V e) (hve : ∀ r ∈ xe, ∀ id ∈ r, id < V)
    (hpee : rect2 E.positionalEncoding L e) (hb : 0 < b) (hL : 0 < L)
    (hxd : xd.length = bd) (hxdr : ∀ r ∈ xd, r.length = Ld)
    (htd : rect2 D.embedding Vd ed) (hvd : ∀ r ∈ xd, ∀ id ∈ r, id < Vd)
    (hped : rect2 D.positionalEncoding Ld ed) (hbd : 0 < bd) (hLd : 0 < Ld) :
    (∃ z, encoderFirstInput E xe = some z ∧ rect3 z b L e ∧
      ∀ bi si j, bi < b → si < L → j < e →
        get3 z bi si j = get3 (embedLookup E.embedding xe) bi si j
          + (get3 (embedLookup E.embedding xe) bi si j
            + getEntry E.positionalEncoding si j))
    ∧ (∃ w, decoderFirstInput D xd = some w ∧ rect3 w bd Ld ed ∧
      ∀ bi si j, bi < bd → si < Ld → j < ed →
        get3 w bi si j = get3 (embedLookup D.embedding xd) bi si j
          + (get3 (embedLookup D.embedding xd) bi si j
            + getEntry D.positionalEncoding si j)) := by
  constructor
  · have heq : encoderFirstInput E xe
        = (posEncForward E.positionalEncoding (embedLookup E.embedding xe)).bind
            (fun p => broadcastAdd3 (embedLookup E.embedding xe) p) := rfl
    rw [heq]
    exact firstInputAux E.embedding E.positionalEncoding xe b L e V hxe hxer hte hve hpee hb hL
  · have heq : decoderFirstInput D xd
        = (posEncForward D.positionalEncoding (embedLookup D.embedding xd)).bind
            (fun p => broadcastAdd3 (embedLookup D.embedding xd) p) := rfl
    rw [heq]
    exact firstInputAux D.embedding D.positionalEncoding xd bd Ld ed Vd hxd hxdr htd hvd
      hped hbd hLd

/-- Witness for C2 at the concrete modules `enc0`/`dec0` and batch `[[0]]`. -/
theorem firstInput_adds_embedding_twice_witness :
    (∃ z, encoderFirstInput enc0 [[0]] = some z ∧ rect3 z 1 1 2 ∧
      ∀ bi si j, bi < 1 → si < 1 → j < 2 →
        get3 z bi si j = get3 (embedLookup enc0.embedding [[0]]) bi si j
          + (get3 (embedLookup enc0.embedding [[0]]) bi si j
            + getEntry enc0.positionalEncoding si j))
    ∧ (∃ w, decoderFirstInput dec0 [[0]] = some w ∧ rect3 w 1 1 2 ∧
      ∀ bi si j, bi < 1 → si < 1 → j < 2 →
        get3 w bi si j = get3 (embedLookup dec0.embedding [[0]]) bi si j
          + (get3 (embedLookup dec0.embedding [[0]]) bi si j
            + getEntry dec0.positionalEncoding si j)) :=
  firstInput_adds_embedding_twice enc0 dec0 [[0]] [[0]] 1 1 2 1 1 1 2 1
    (by decide) (by decide) (by decide) (by decide) (by decide) (by decide) (by decide)
    (by decide) (by decide) (by decide) (by decide) (by decide) (by decide) (by decide)

set_option maxRecDepth 8000 in
/-- C2 counterexample: for the concrete encoder `enc0` and source batch `[[0]]`
the first-layer input is `[[[10, 14]]]`, i.e. `2·embedding + PE`, whereas the
spec's `embedding + PE` is `[[[5, 7]]]`. -/
theorem firstInput_counterexample :
    encoderFirstInput enc0 [[0]] = some [[[10, 14]]]
    ∧ posEncForward enc0.positionalEncoding (embedLookup enc0.embedding [[0]])
        = some [[[5, 7]]]
    ∧ encoderFirstInput enc0 [[0]]
        ≠ posEncForward enc0.positionalEncoding (embedLookup enc0.embedding [[0]]) := by
  have h1 : encoderFirstInput enc0 [[0]] = some [[[10, 14]]] := by
    norm_num [encoderFirstInput, enc0, embedLookup, posEncForward, broadcastAdd3, buildPE,
      ratOps, zerosMat, setEntry, updAt, peArg, List.range_succ, bcastLen, rowLen, colLen,
      get3b, bget, Option.bind]
  have h2 : posEncForward enc0.positionalEncoding (embedLookup enc0.embedding [[0]])
      = some [[[5, 7]]] := by
    norm_num [enc0, embedLookup, posEncForward, broadcastAdd3, buildPE,
      ratOps, zerosMat, setEntry, updAt, peArg, List.range_succ, bcastLen, rowLen, colLen,
      get3b, bget]
  refine ⟨h1, h2, ?_⟩
  rw [h1, h2]
  norm_num

/-- C5 (corrected): `PositionalEncoding.forward` adds the whole positional
table (there is no `PE[0:seq_len]` slice): when `seq_len = max_len` it returns
`input + PE` broadcast over the batch axis, but for any `seq_len ∉ {1, max_len}`
with `max_len ≠ 1` the broadcasting addition fails with a shape mismatch — the
call does not succeed for every `seq_len < max_len`. -/
theorem posEncForward_spec (pe : Mat α) (x : T3 α) (b s e max_len : Nat)
    (hx : rect3 x b s e) (hpe : rect2 pe max_len e) (hb : 0 < b) (hs : 0 < s) :
    (s = max_len → ∃ z, posEncForward pe x = some z ∧ rect3 z b s e ∧
        ∀ bi si j, bi < b → si < s → j < e →
          get3 z bi si j = get3 x bi si j + getEntry pe si j)
    ∧ (s ≠ 1 → s ≠ max_len → max_len ≠ 1 → posEncForward pe x = none) := by
  constructor
  · intro hsm
    subst hsm
    unfold posEncForward
    exact broadcastAdd3_table x pe b s e hx hpe hb hs
  · intro h1 h2 h3
    unfold posEncForward
    apply broadcastAdd3_none_dim1
    · rw [rect3_rowLen x b s e hx hb]
      have hr1 : rowLen ([pe] : T3 α) = pe.length := rfl
      rw [hr1, hpe.1]
      exact h2
    · rw [rect3_rowLen x b s e hx hb]
      exact h1
    · have hr1 : rowLen ([pe] : T3 α) = pe.length := rfl
      rw [hr1, hpe.1]
      exact h3

/-- Witness for C5 at a concrete table and inputs (both halves instantiated:
the successful `seq_len = max_len` call and the failing `seq_len = 2,
max_len = 3` call). -/
theorem posEncForward_spec_witness :
    (∃ z, posEncForward (buildPE ratOps 2 2) [[[1, 2], [3, 4]]] = some z
      ∧ rect3 z 1 2 2 ∧ ∀ bi si j, bi < 1 → si < 2 → j < 2 →
          get3 z bi si j = get3 [[[1, 2], [3, 4]]] bi si j
            + getEntry (buildPE ratOps 2 2) si j)
    ∧ posEncForward (buildPE ratOps 3 2) [[[1, 2], [3, 4]]] = none :=
  ⟨(posEncForward_spec (buildPE ratOps 2 2) [[[1, 2], [3, 4]]] 1 2 2 2
      (by decide) (by decide) (by decide) (by decide)).1 rfl,
    (posEncForward_spec (buildPE ratOps 3 2) [[[1, 2], [3, 4]]] 1 2 2 3
      (by decide) (by decide) (by decide) (by decide)).2
      (by decide) (by decide) (by decide)⟩

set_option maxRecDepth 8000 in
/-- C5 counterexample: a call with `seq_len = 2` strictly smaller than
`max_len = 3` does not succeed — the forward call fails with a shape
mismatch. -/
theorem posEncForward_counterexample :
    posEncForward (buildPE ratOps 3 2) [[[1, 2], [3, 4]]] = none ∧ (2 : Nat) ≤ 3 := by
  refine ⟨?_, by omega⟩
  norm_num [posEncForward, broadcastAdd3, buildPE, ratOps, zerosMat, setEntry, updAt, peArg,
    List.range_succ, bcastLen, rowLen, colLen, get3b, bget]

/-- C7 (corrected): when `max_len ≥ 2`, a forward call whose sequence length
exceeds `max_len` fails deterministically (a broadcasting shape mismatch — not
a dedicated sequence-too-long error) and produces no partial result; but when
`max_len = 1` the single-row table broadcasts and the call succeeds, so the
claim does not hold for every configuration. -/
theorem posEncForward_too_long (pe : Mat α) (x : T3 α) (b s e max_len : Nat)
    (hx : rect3 x b s e) (hpe : pe.length = max_len) (hb : 0 < b)
    (hmax : 2 ≤ max_len) (hs : max_len < s) :
    posEncForward pe x = none := by
  unfold posEncForward
  apply broadcastAdd3_none_dim1
  · rw [rect3_rowLen x b s e hx hb]
    have hr1 : rowLen ([pe] : T3 α) = pe.length := rfl
    rw [hr1, hpe]
    omega
  · rw [rect3_rowLen x b s e hx hb]
    omega
  · have hr1 : rowLen ([pe] : T3 α) = pe.length := rfl
    rw [hr1, hpe]
    omega

/-- Witness for C7: `max_len = 2`, `seq_len = 3`. -/
theorem posEncForward_too_long_witness :
    posEncForward (buildPE ratOps 2 2) [[[1, 2], [3, 4], [5, 6]]] = none :=
  posEncForward_too_long (buildPE ratOps 2 2) [[[1, 2], [3, 4], [5, 6]]] 1 3 2 2
    (by decide) (by decide) (by decide) (by decide) (by decide)

set_option maxRecDepth 8000 in
/-- C7 counterexample: with `max_len = 1` a call whose sequence length (2)
exceeds `max_len` does not fail — the one-row table broadcasts over the
sequence axis and the call succeeds. -/
theorem posEncForward_too_long_counterexample :
    (buildPE ratOps 1 2).length = 1
    ∧ posEncForward (buildPE ratOps 1 2) [[[1, 2], [3, 4]]] = some [[[1, 2], [3, 4]]] := by
  refine ⟨by decide, ?_⟩
  norm_num [posEncForward, broadcastAdd3, buildPE, ratOps, zerosMat, setEntry, updAt, peArg,
    List.range_succ, bcastLen, rowLen, colLen, get3b, bget]

/-- C4 (confirmed): `ScaledDotProductAttention.forward` computes
`scores = (Q·Kᵀ)/sqrt(dk)` entrywise; with a mask, every score at a position
where the (broadcast) mask is 0 is replaced by the finite constant `-1e10`
before the softmax, and positions where the mask is nonzero keep their score;
softmax is applied over the last axis; the output is `weights · V`; and the
dropout draw is applied to the weights only in training mode (with a positive
rate), the output being `weights · V` untouched in evaluation mode. -/
theorem sdpAttention_spec (F : NumOps α) (S : ScaledDotProductAttention α)
    (q k : T4 α) (m : T3 α) (B H lq lk dkq : Nat)
    (hq : rect4 q B H lq dkq) (hk : rect4 k B H lk dkq) (hdk : 0 < dkq) :
    (∀ (v : T4 α) (mask : Option (T3 α)),
        sdpForward F S false q k v mask
          = List.zipWith (List.zipWith matmulM) (sdpSoftmaxWeights F S.dk q k mask) v)
    ∧ (∀ (v : T4 α) (mask : Option (T3 α)), 0 < S.dropout_rate →
        sdpForward F S true q k v mask
          = List.zipWith (List.zipWith matmulM)
              (S.drop (sdpSoftmaxWeights F S.dk q k mask)) v)
    ∧ (∀ b h i j, b < B → h < H → i < lq → j < lk →
        get4 (sdpRawScores F S.dk q k) b h i j
          = dotV (((q.getD b []).getD h []).getD i [])
              (((k.getD b []).getD h []).getD j []) / F.sqrtf ((S.dk : α)))
    ∧ (∀ b h i j, b < B → h < H → i < lq → j < lk →
        get4 (sdpMaskedScores F S.dk q k (some m)) b h i j
          = if get3b m b i j = 0 then maskFillConstant
            else get4 (sdpRawScores F S.dk q k) b h i j)
    ∧ maskFillConstant = ((-10000000000 : α))
    ∧ sdpSoftmaxWeights F S.dk q k (some m)
        = (sdpMaskedScores F S.dk q k (some m)).map
            (fun bs => bs.map (fun sl => sl.map (softmaxRow F.expf))) := by
  refine ⟨?_, ?_, ?_, ?_, rfl, rfl⟩
  · intro v mask
    rw [sdpForward_eq_weights F S false q k v mask, if_neg (by simp)]
  · intro v mask hrate
    rw [sdpForward_eq_weights F S true q k v mask, if_pos ⟨hrate, rfl⟩]
  · intro b h i j hb hh hi hj
    exact get4_sdpRawScores F S.dk q k B H lq lk dkq hq hk hdk b h i j hb hh hi hj
  · intro b h i j hb hh hi hj
    have hraw := rect4_sdpRawScores F S.dk q k B H lq lk dkq hq hk hdk
    obtain ⟨b1, b2, b3, b4⟩ := rect4_bounds _ B H lq lk hraw b h i j hb hh hi hj
    exact get4_sdpMask m (sdpRawScores F S.dk q k) b h i j b1 b2 b3 b4

/-- Witness for C4 at a concrete one-element configuration. -/
theorem sdpAttention_spec_witness :
    sdpForward ratOps ⟨1, 0, id⟩ false [[[[1]]]] [[[[1]]]] [[[[1]]]] (some [[[1]]])
      = List.zipWith (List.zipWith matmulM)
          (sdpSoftmaxWeights ratOps 1 [[[[1]]]] [[[[1]]]] (some [[[1]]])) [[[[1]]]] :=
  (sdpAttention_spec ratOps ⟨1, 0, id⟩ [[[[1]]]] [[[[1]]]] [[[1]]] 1 1 1 1 1
    (by decide) (by decide) (by decide)).1 [[[[1]]]] (some [[[1]]])

/-- C6 (corrected): the attention kernel's output has shape `(B, H, lq, cv)` —
the row count follows the query, not the value — independently of mask
presence; it equals the value's shape exactly when the query's and the
key/value's sequence lengths agree. -/
theorem sdp_output_shape (F : NumOps α) (S : ScaledDotProductAttention α)
    (q k v : T4 α) (mask : Option (T3 α)) (B H lq lk cv dkq : Nat)
    (hq : rect4 q B H lq dkq) (hk : rect4 k B H lk dkq) (hv : rect4 v B H lk cv)
    (hdk : 0 < dkq) (hlk : 0 < lk) :
    rect4 (sdpForward F S false q k v mask) B H lq cv
    ∧ (lq = lk → rect4 (sdpForward F S false q k v mask) B H lk cv) := by
  have hw : rect4 (sdpSoftmaxWeights F S.dk q k mask) B H lq lk :=
    rect4_sdpSoftmaxWeights F S.dk q k mask B H lq lk dkq hq hk hdk
  have heq := sdpForward_eq_weights F S false q k v mask
  rw [if_neg (by simp)] at heq
  have h1 : rect4 (sdpForward F S false q k v mask) B H lq cv := by
    rw [heq]
    exact rect4_zip_matmul _ v B H lq lk cv hw hv hlk
  exact ⟨h1, fun hql => hql ▸ h1⟩

/-- Witness for C6 at a concrete configuration with equal sequence lengths. -/
theorem sdp_output_shape_witness :
    rect4 (sdpForward ratOps ⟨1, 0, id⟩ false [[[[1]]]] [[[[1]]]] [[[[1]]]] none) 1 1 1 1
    ∧ ((1 : Nat) = 1 →
        rect4 (sdpForward ratOps ⟨1, 0, id⟩ false [[[[1]]]] [[[[1]]]] [[[[1]]]] none) 1 1 1 1) :=
  sdp_output_shape ratOps ⟨1, 0, id⟩ [[[[1]]]] [[[[1]]]] [[[[1]]]] none 1 1 1 1 1 1
    (by decide) (by decide) (by decide) (by decide) (by decide)

/-- C6 counterexample: with a one-row query and a two-row key/value, the kernel
output has a single row — its shape does not equal the value's shape. -/
theorem sdp_output_shape_counterexample :
    sdpForward ratOps ⟨1, 0, id⟩ false [[[[1]]]] [[[[1], [2]]]] [[[[3], [5]]]] none
      = [[[[13 / 3]]]]
    ∧ rect4 ([[[[3], [5]]]] : T4 ℚ) 1 1 2 1
    ∧ ¬ rect4 ([[[[(13 : ℚ) / 3]]]]) 1 1 2 1 := by
  refine ⟨?_, by decide, by decide⟩
  norm_num [sdpForward, ratOps, matmulM, transposeM, transposeD, dotV, softmaxRow, rowLen,
    List.range_succ]

/-- C9 (corrected): `LayerNorm.forward` outputs
`γ ⊙ (x − mean)/(std + eps) + β`, the statistics taken across the feature
axis; with `γ = 1, β = 0` the output row has mean exactly 0 and standard
deviation `std(x)/(std(x) + eps)`, which is within `eps` of 1 whenever
`std(x) + eps ≥ 1` — but not for every row: a constant row yields output
standard deviation 0 (see the counterexample). -/
theorem layerNorm_spec (x : Vec ℝ) (n : Nat) (eps : ℝ)
    (hx : x.length = n) (hn : 2 ≤ n) (heps : 0 < eps) :
    (layerNormRow Real.sqrt (mkLayerNorm n eps) x
        = x.map (fun v => (v - meanRow x) / (stdRow Real.sqrt x + eps)))
    ∧ meanRow (layerNormRow Real.sqrt (mkLayerNorm n eps) x) = 0
    ∧ stdRow Real.sqrt (layerNormRow Real.sqrt (mkLayerNorm n eps) x)
        = stdRow Real.sqrt x / (stdRow Real.sqrt x + eps)
    ∧ (1 ≤ stdRow Real.sqrt x + eps →
        |stdRow Real.sqrt (layerNormRow Real.sqrt (mkLayerNorm n eps) x) - 1| ≤ eps) := by
  have hlen : 0 < x.length := by omega
  have h0 := layerNormRow_ones Real.sqrt n eps x hx
  have hs0 : 0 ≤ stdRow Real.sqrt x := Real.sqrt_nonneg _
  have hd : 0 < stdRow Real.sqrt x + eps := by linarith
  have hmean : meanRow (layerNormRow Real.sqrt (mkLayerNorm n eps) x) = 0 := by
    rw [h0]
    exact meanRow_div_const x _ hlen
  have hstd : stdRow Real.sqrt (layerNormRow Real.sqrt (mkLayerNorm n eps) x)
      = stdRow Real.sqrt x / (stdRow Real.sqrt x + eps) := by
    rw [h0]
    exact stdRow_div_const_real x _ hd (by omega)
  refine ⟨h0, hmean, hstd, ?_⟩
  intro hone
  rw [hstd]
  have key : stdRow Real.sqrt x / (stdRow Real.sqrt x + eps) - 1
      = -(eps / (stdRow Real.sqrt x + eps)) := by
    field_simp
  rw [key, abs_neg, abs_of_nonneg (div_nonneg heps.le hd.le), div_le_iff₀ hd]
  nlinarith

/-- Witness for C9 at the concrete row `[0, 2]` with `eps = 1`. -/
theorem layerNorm_spec_witness :
    (layerNormRow Real.sqrt (mkLayerNorm 2 1) [0, 2]
        = ([0, 2] : Vec ℝ).map
            (fun v => (v - meanRow [0, 2]) / (stdRow Real.sqrt [0, 2] + 1)))
    ∧ meanRow (layerNormRow Real.sqrt (mkLayerNorm 2 1) [0, 2]) = 0
    ∧ stdRow Real.sqrt (layerNormRow Real.sqrt (mkLayerNorm 2 1) [0, 2])
        = stdRow Real.sqrt [0, 2] / (stdRow Real.sqrt [0, 2] + 1)
    ∧ (1 ≤ stdRow Real.sqrt [0, 2] + 1 →
        |stdRow Real.sqrt (layerNormRow Real.sqrt (mkLayerNorm 2 1) [0, 2]) - 1| ≤ 1) :=
  layerNorm_spec [0, 2] 2 1 rfl (by omega) (by norm_num)

/-- C9 counterexample: a constant input row gives the zero output row, whose
standard deviation is 0 — not within `eps = 1e-6` of 1. -/
theorem layerNorm_counterexample :
    layerNormRow Real.sqrt (mkLayerNorm 2 (1 / 1000000)) [1, 1] = [0, 0]
    ∧ ¬ |stdRow Real.sqrt
          (layerNormRow Real.sqrt (mkLayerNorm 2 (1 / 1000000)) [1, 1]) - 1|
        ≤ 1 / 1000000 := by
  have h1 : layerNormRow Real.sqrt (mkLayerNorm 2 (1 / 1000000)) [1, 1]
      = ([0, 0] : Vec ℝ) := by
    norm_num [layerNormRow, mkLayerNorm, meanRow, varRow, stdRow, List.replicate,
      List.zipWith, Real.sqrt_zero]
  refine ⟨h1, ?_⟩
  rw [h1]
  norm_num [stdRow, varRow, meanRow, Real.sqrt_zero]

theorem option_some_bind {β γ : Type} (a : β) (f : β → Option γ) :
    ((some a : Option β) >>= f) = f a := rfl

theorem option_none_bind {β γ : Type} (f : β → Option γ) :
    ((none : Option β) >>= f) = none := rfl

/-- C10 (confirmed): `MultiHeadAttention.forward` reads batch size and sequence
length from the query alone (line 72) and `view`s the projected key and value
with those same dimensions (lines 75-76), so whenever the key's or the value's
sequence length differs from the query's, one of the reshape steps fails and
the whole call produces no result. -/
theorem mhaForward_shape_mismatch (F : NumOps α) (M : MultiHeadAttention α)
    (training : Bool) (query key value : T3 α) (mask : Option (T3 α))
    (b lq lk lv e : Nat) (hq : rect3 query b lq e) (hk : rect3 key b lk e)
    (hv : rect3 value b lv e) (hb : 0 < b) (he : 0 < e)
    (hwq : M.dense_query.weight.length = e) (hbq : M.dense_query.bias.length = e)
    (hwk : M.dense_key.weight.length = e) (hbk : M.dense_key.bias.length = e)
    (hwv : M.dense_value.weight.length = e) (hbv : M.dense_value.bias.length = e)
    (hne : lk ≠ lq ∨ lv ≠ lq) :
    mhaForward F M training query key value mask = none := by
  have hlen : query.length = b := hq.1
  have hrow : rowLen query = lq := rect3_rowLen query b lq e hq hb
  have hqp : rect3 (linearT3 M.dense_query query) b lq e :=
    rect3_linearT3 M.dense_query query b lq e e hq hwq hbq
  have hkp : rect3 (linearT3 M.dense_key key) b lk e :=
    rect3_linearT3 M.dense_key key b lk e e hk hwk hbk
  have hvp : rect3 (linearT3 M.dense_value value) b lv e :=
    rect3_linearT3 M.dense_value value b lv e e hv hwv hbv
  have hqf : (flat3 (linearT3 M.dense_query query)).length = b * (lq * e) :=
    length_flat3 _ b lq e hqp
  have hkf : (flat3 (linearT3 M.dense_key key)).length = b * (lk * e) :=
    length_flat3 _ b lk e hkp
  have hvf : (flat3 (linearT3 M.dense_value value)).length = b * (lv * e) :=
    length_flat3 _ b lv e hvp
  unfold mhaForward
  simp only [hlen, hrow]
  by_cases hA : b * (lq * e) = b * (lq * (M.head * M.dk))
  · rw [view4_eq_some b lq M.head M.dk (linearT3 M.dense_query query)
      (by rw [hqf]; exact hA)]
    rcases eq_or_ne lk lq with hkq | hkq
    · have hvq : lv ≠ lq := by
        rcases hne with h | h
        · exact absurd hkq h
        · exact h
      rw [view4_eq_some b lq M.head M.dk (linearT3 M.dense_key key)
        (by rw [hkf, hkq]; exact hA)]
      have hvnone : view4 b lq M.head M.dk (linearT3 M.dense_value value) = none := by
        apply view4_eq_none
        rw [hvf]
        intro hc
        rw [← hA] at hc
        exact hvq (Nat.eq_of_mul_eq_mul_right he
          (Nat.eq_of_mul_eq_mul_left hb hc))
      rw [hvnone]
      simp only [option_some_bind, option_none_bind]
    · have hknone : view4 b lq M.head M.dk (linearT3 M.dense_key key) = none := by
        apply view4_eq_none
        rw [hkf]
        intro hc
        rw [← hA] at hc
        exact hkq (Nat.eq_of_mul_eq_mul_right he
          (Nat.eq_of_mul_eq_mul_left hb hc))
      rw [hknone]
      simp only [option_some_bind, option_none_bind]
  · have hqnone : view4 b lq M.head M.dk (linearT3 M.dense_query query) = none := by
      apply view4_eq_none
      rw [hqf]
      exact hA
    rw [hqnone]
    simp only [option_none_bind]

/-- Witness for C10: a single-head 2-dimensional module called with a key whose
sequence length (2) differs from the query's (1). -/
theorem mhaForward_shape_mismatch_witness :
    mhaForward ratOps mha2 false [[[1, 2]]] [[[1, 2], [3, 4]]] [[[1, 2]]] none = none :=
  mhaForward_shape_mismatch ratOps mha2 false [[[1, 2]]] [[[1, 2], [3, 4]]] [[[1, 2]]]
    none 1 1 2 1 2 (by decide) (by decide) (by decide) (by decide) (by decide)
    (by decide) (by decide) (by decide) (by decide) (by decide) (by decide)
    (Or.inl (by decide))

end TransformerSpec
